import Mathlib

/-!
Verification of the MSAL.js browser storage layer.

Shallow embedding of the persistence layer of the msal.js authentication
client: the `BrowserStorage` / `AuthCache` classes (src/unnamed/part_000,
src/unnamed/part_001) and the older `Storage` revision
(src/lib/msal-core/src/Storage.ts).

Modelling conventions:
* A Web Storage area is an association list of string keys and string
  values, preserving insertion order (as `localStorage` does).
* The document cookie store is an association list from cookie names to
  cookie values (both kept as `List Char`); assigning a cookie string
  `"<n>=<v>;attrs"` upserts the pair parsed from the text before the first
  `';'`, or removes the cookie when the `expires` attribute is in the past.
* `JSON.parse` of the host is modelled by an executable recursive-descent
  validator/parser (`jsonParse`); string escapes are kept verbatim in the
  parse result, which is irrelevant to the properties proved here.
* `String.prototype.match` with a string argument coerces it with
  `new RegExp` and searches for the (unanchored) regular expression; an
  executable backtracking matcher models the fragment: literal
  characters, `.`, and the quantifiers `*`, `+`, `?` on single atoms
  (`jsMatchTruthy`). A pattern outside the fragment maps to `none` — on
  such patterns the host either throws a `SyntaxError` or applies regex
  features the model does not decide — and no claim is settled there.
* `async` methods are modelled as pure state transformers; where the source
  *fails to await* a promise and tests the promise object itself, the model
  keeps that truthiness test explicit (`unawaitedPromiseTruthy`).
* Methods whose names collide across the two classes carry a `bs`
  (`BrowserStorage`) or `ac` (`AuthCache`) marker: `acSetItem` is
  `AuthCache.setItem`, `bsGetItem` is `BrowserStorage.getItem`, and so on;
  `this.`-calls inside `BrowserStorage` dispatch dynamically to the
  `AuthCache` overrides, as in the source. Methods of the older `Storage`
  class (Storage.ts) carry an `st` marker.
-/

/-! ## Generic list-of-characters utilities (JS string primitives) -/

/-- JS `pre.length <= s.length && s.indexOf(pre) === 0`: list prefix test. -/
def isPrefixL : List Char → List Char → Bool
  | [], _ => true
  | _ :: _, [] => false
  | a :: as, b :: bs => if a = b then isPrefixL as bs else false

/-- JS `hay.indexOf(nee) !== -1`: substring occurrence test. -/
def isInfixL : List Char → List Char → Bool
  | nee, [] => isPrefixL nee []
  | nee, c :: t => isPrefixL nee (c :: t) || isInfixL nee t

/-- JS `s.indexOf(sub) !== -1` on strings. -/
def jsContains (hay sub : String) : Bool := isInfixL sub.data hay.data

/-- JS `s.indexOf(pre) === 0` on strings. -/
def jsStartsWith (s pre : String) : Bool := isPrefixL pre.data s.data

theorem isPrefixL_append_self (xs ys : List Char) : isPrefixL xs (xs ++ ys) = true := by
  induction xs with
  | nil => rfl
  | cons a as ih => simp [isPrefixL, ih]

theorem isPrefixL_refl (xs : List Char) : isPrefixL xs xs = true := by
  have := isPrefixL_append_self xs []
  simpa using this

/-! ## A model of the host `JSON.parse`

`jsonParse s` returns `some v` when `s` is accepted by (a faithful model
of) the ECMAScript `JSON.parse`, and `none` when `JSON.parse` would throw.
Escape sequences inside strings are validated but kept verbatim. -/

inductive Json where
  | null : Json
  | bool : Bool → Json
  | num : String → Json
  | str : String → Json
  | arr : List Json → Json
  | obj : List (String × Json) → Json

def isWsC (c : Char) : Bool := c = ' ' || c = '\t' || c = '\n' || c = '\r'

def skipWsL : List Char → List Char
  | [] => []
  | c :: cs => if isWsC c then skipWsL cs else c :: cs

def isDigitC (c : Char) : Bool := '0' ≤ c && c ≤ '9'

def isHexC (c : Char) : Bool :=
  isDigitC c || ('a' ≤ c && c ≤ 'f') || ('A' ≤ c && c ≤ 'F')

/-- Body of a JSON string literal after the opening quote; returns the raw
content characters and the remainder after the closing quote. -/
def parseStrBody : Nat → List Char → Option (List Char × List Char)
  | 0, _ => none
  | _ + 1, [] => none
  | fuel + 1, c :: cs =>
    if c = '"' then some ([], cs)
    else if c = '\\' then
      match cs with
      | [] => none
      | e :: cs' =>
        if e = 'u' then
          match cs' with
          | h1 :: h2 :: h3 :: h4 :: cs'' =>
            if isHexC h1 && isHexC h2 && isHexC h3 && isHexC h4 then
              match parseStrBody fuel cs'' with
              | some (body, rest) => some ('\\' :: 'u' :: h1 :: h2 :: h3 :: h4 :: body, rest)
              | none => none
            else none
          | _ => none
        else if e = '"' || e = '\\' || e = '/' || e = 'b' || e = 'f'
                || e = 'n' || e = 'r' || e = 't' then
          match parseStrBody fuel cs' with
          | some (body, rest) => some ('\\' :: e :: body, rest)
          | none => none
        else none
    else
      match parseStrBody fuel cs with
      | some (body, rest) => some (c :: body, rest)
      | none => none

def spanDigits : List Char → List Char × List Char
  | [] => ([], [])
  | c :: cs =>
    if isDigitC c then
      let (d, r) := spanDigits cs
      (c :: d, r)
    else ([], c :: cs)

def parseIntPart : List Char → Option (List Char × List Char)
  | [] => none
  | c :: cs =>
    if c = '0' then some ([c], cs)
    else if isDigitC c then
      let (d, r) := spanDigits cs
      some (c :: d, r)
    else none

def parseFracPart : List Char → Option (List Char × List Char)
  | '.' :: cs =>
    let (d, r) := spanDigits cs
    if d.isEmpty then none else some ('.' :: d, r)
  | cs => some ([], cs)

def parseExpPart : List Char → Option (List Char × List Char)
  | [] => some ([], [])
  | c :: cs =>
    if c = 'e' || c = 'E' then
      let (sign, cs') :=
        match cs with
        | s :: rest => if s = '+' || s = '-' then ([s], rest) else (([] : List Char), s :: rest)
        | [] => ([], [])
      let (d, r) := spanDigits cs'
      if d.isEmpty then none else some (c :: (sign ++ d), r)
    else some ([], c :: cs)

def parseNumber (cs : List Char) : Option (List Char × List Char) :=
  let (neg, cs1) :=
    match cs with
    | '-' :: rest => (['-'], rest)
    | _ => ([], cs)
  match parseIntPart cs1 with
  | none => none
  | some (ip, cs2) =>
    match parseFracPart cs2 with
    | none => none
    | some (fp, cs3) =>
      match parseExpPart cs3 with
      | none => none
      | some (ep, cs4) => some (neg ++ ip ++ fp ++ ep, cs4)

mutual

def parseVal : Nat → List Char → Option (Json × List Char)
  | 0, _ => none
  | fuel + 1, cs =>
    match skipWsL cs with
    | [] => none
    | c :: rest =>
      if c = '{' then
        match skipWsL rest with
        | '}' :: r2 => some (.obj [], r2)
        | r2 => parseMembers fuel r2 []
      else if c = '[' then
        match skipWsL rest with
        | ']' :: r2 => some (.arr [], r2)
        | r2 => parseElems fuel r2 []
      else if c = '"' then
        match parseStrBody fuel rest with
        | some (body, r2) => some (.str ⟨body⟩, r2)
        | none => none
      else if c = 't' then
        match rest with
        | 'r' :: 'u' :: 'e' :: r2 => some (.bool true, r2)
        | _ => none
      else if c = 'f' then
        match rest with
        | 'a' :: 'l' :: 's' :: 'e' :: r2 => some (.bool false, r2)
        | _ => none
      else if c = 'n' then
        match rest with
        | 'u' :: 'l' :: 'l' :: r2 => some (.null, r2)
        | _ => none
      else if c = '-' || isDigitC c then
        match parseNumber (c :: rest) with
        | some (lex, r2) => some (.num ⟨lex⟩, r2)
        | none => none
      else none

def parseMembers : Nat → List Char → List (String × Json) → Option (Json × List Char)
  | 0, _, _ => none
  | fuel + 1, cs, acc =>
    match skipWsL cs with
    | '"' :: r1 =>
      match parseStrBody fuel r1 with
      | none => none
      | some (keyChars, r2) =>
        match skipWsL r2 with
        | ':' :: r3 =>
          match parseVal fuel r3 with
          | none => none
          | some (v, r4) =>
            match skipWsL r4 with
            | ',' :: r5 => parseMembers fuel r5 (acc ++ [(⟨keyChars⟩, v)])
            | '}' :: r5 => some (.obj (acc ++ [(⟨keyChars⟩, v)]), r5)
            | _ => none
        | _ => none
    | _ => none

def parseElems : Nat → List Char → List Json → Option (Json × List Char)
  | 0, _, _ => none
  | fuel + 1, cs, acc =>
    match parseVal fuel cs with
    | none => none
    | some (v, r1) =>
      match skipWsL r1 with
      | ',' :: r2 => parseElems fuel r2 (acc ++ [v])
      | ']' :: r2 => some (.arr (acc ++ [v]), r2)
      | _ => none

end

/-- Model of `JSON.parse(s)`: `none` means the host parser throws. -/
def jsonParse (s : String) : Option Json :=
  match parseVal (2 * s.data.length + 2) s.data with
  | some (j, rest) =>
    match skipWsL rest with
    | [] => some j
    | _ => none
  | none => none

/-! ### Rejection lemmas for `jsonParse`

A string whose first character cannot start a JSON value is rejected, for
every fuel. This is what makes the `msal.`/`adal.` namespaced keys
"non-structured" keys for `generateCacheKey`. -/

theorem parseVal_headNone (fuel : Nat) (c : Char) (cs : List Char)
    (hws : isWsC c = false)
    (h1 : c ≠ '{') (h2 : c ≠ '[') (h3 : c ≠ '"') (h4 : c ≠ 't')
    (h5 : c ≠ 'f') (h6 : c ≠ 'n') (h7 : c ≠ '-') (h8 : isDigitC c = false) :
    parseVal fuel (c :: cs) = none := by
  cases fuel with
  | zero => rfl
  | succ n =>
    simp [parseVal, skipWsL, hws, h1, h2, h3, h4, h5, h6, h7, h8]

theorem data_append (a b : String) : (a ++ b).data = a.data ++ b.data := by
  cases a; cases b; rfl

theorem jsonParse_head_none (s : String) (c : Char) (cs : List Char)
    (hdata : s.data = c :: cs)
    (hws : isWsC c = false)
    (h1 : c ≠ '{') (h2 : c ≠ '[') (h3 : c ≠ '"') (h4 : c ≠ 't')
    (h5 : c ≠ 'f') (h6 : c ≠ 'n') (h7 : c ≠ '-') (h8 : isDigitC c = false) :
    jsonParse s = none := by
  unfold jsonParse
  rw [hdata, parseVal_headNone _ c cs hws h1 h2 h3 h4 h5 h6 h7 h8]

/-- Keys starting with the letter `m` (in particular every `msal.`-prefixed
physical key) are never valid JSON. -/
theorem jsonParse_m_none (s : String) (cs : List Char) (hdata : s.data = 'm' :: cs) :
    jsonParse s = none := by
  apply jsonParse_head_none s 'm' cs hdata <;> decide

/-- Keys starting with the letter `a` (in particular `adal.`-prefixed keys)
are never valid JSON. -/
theorem jsonParse_a_none (s : String) (cs : List Char) (hdata : s.data = 'a' :: cs) :
    jsonParse s = none := by
  apply jsonParse_head_none s 'a' cs hdata <;> decide

/-! ## Constants

`Constants.ts` / `utils/Constants` is not part of the sources provided under
`src/`; these values are modelled from the spec.

Modelled from the spec: the namespace prefix is the string `"msal"`
(spec section 8: keys `"msal.foo"`), the legacy library prefix is the ADAL
id-token key, the renewal sentinel is the literal `"in progress"`
(spec section 3, RenewalStatus), and the temporary-cache key names follow the
identifiers used in spec sections 4.3 and 6
(`interactionStatus`, `redirectRequest`, nonce / login-state /
login-request / acquire-token-state cookies, `renewStatus`). -/

def cachePrefix : String := "msal"

def adalIdToken : String := "adal.idtoken"

def inProgress : String := "in progress"

def renewStatusKey : String := "renewStatus"

def interactionStatusKey : String := "interactionStatus"

def redirectRequestKey : String := "redirectRequest"

def nonceIdTokenKey : String := "nonceIdToken"

def stateLoginKey : String := "stateLogin"

def loginRequestKey : String := "loginRequest"

def stateAcquireTokenKey : String := "stateAcquireToken"

/-- `Constants.resourceDelimiter`. -/
def resourceDelimiter : String := "|"

/-! ## The key namespacer: `AuthCache.generateCacheKey`
(src/unnamed/part_001 lines 281-297). -/

/-- `AuthCache.generateCacheKey(key, addInstanceId)`:
try `JSON.parse(key)` (structured keys pass through); otherwise pass
already-prefixed keys through; otherwise prepend
`msal.<clientId>.` (current schema) or `msal.` (legacy schema). -/
def generateCacheKey (clientId : String) (addInstanceId : Bool) (key : String) : String :=
  match jsonParse key with
  | some _ => key
  | none =>
    if jsStartsWith key cachePrefix || jsStartsWith key adalIdToken then key
    else if addInstanceId then cachePrefix ++ "." ++ clientId ++ "." ++ key
    else cachePrefix ++ "." ++ key

theorem jsStartsWith_msal (s : String) :
    jsStartsWith (cachePrefix ++ "." ++ s) cachePrefix = true := by
  unfold jsStartsWith cachePrefix
  rw [data_append, data_append]
  simp [isPrefixL]

theorem jsonParse_msal_append (s : String) :
    jsonParse (cachePrefix ++ "." ++ s) = none := by
  apply jsonParse_m_none _ (("sal".data ++ ".".data) ++ s.data)
  rw [data_append, data_append]
  rfl

theorem string_ext_data (a b : String) (h : a.data = b.data) : a = b := by
  cases a; cases b; cases h; rfl

theorem string_append_assoc (a b c : String) : a ++ b ++ c = a ++ (b ++ c) := by
  apply string_ext_data
  simp [data_append]

/-- Both generations of `generateCacheKey` either pass the key through
unchanged (structured or already-prefixed keys, for every client id), or
namespace it with the current / legacy schema. -/
theorem generateCacheKey_cases (key : String) :
    (∀ (cid : String) (b : Bool), generateCacheKey cid b key = key)
    ∨ (∀ cid : String,
        generateCacheKey cid true key = cachePrefix ++ "." ++ (cid ++ "." ++ key)
        ∧ generateCacheKey cid false key = cachePrefix ++ "." ++ key) := by
  cases h : jsonParse key with
  | some j =>
    left
    intro cid b
    unfold generateCacheKey
    rw [h]
  | none =>
    by_cases hp : (jsStartsWith key cachePrefix || jsStartsWith key adalIdToken) = true
    · left
      intro cid b
      unfold generateCacheKey
      rw [h]
      simp [hp]
    · right
      intro cid
      constructor <;> unfold generateCacheKey <;> rw [h] <;>
        simp [hp, string_append_assoc]

/-- `generateCacheKey` passes every `msal.`-namespaced string through. -/
theorem generateCacheKey_ns (cid : String) (b : Bool) (s : String) :
    generateCacheKey cid b (cachePrefix ++ "." ++ s) = cachePrefix ++ "." ++ s := by
  unfold generateCacheKey
  rw [jsonParse_msal_append]
  simp [jsStartsWith_msal]

/-- Applying `generateCacheKey` (either generation, any client id) to
anything it has already produced returns it unchanged. -/
theorem generateCacheKey_fix (cid cid' : String) (b b' : Bool) (key : String) :
    generateCacheKey cid' b' (generateCacheKey cid b key)
      = generateCacheKey cid b key := by
  rcases generateCacheKey_cases key with hall | hns
  · rw [hall cid b]
    exact hall cid' b'
  · cases b with
    | true => rw [(hns cid).1]; exact generateCacheKey_ns cid' b' _
    | false => rw [(hns cid).2]; exact generateCacheKey_ns cid' b' _

/-! ## Web Storage model

An association list preserving insertion order; `setItem` on an existing
key updates it in place, `Object.keys` enumerates in that order. -/

def Store := List (String × String)

def lookupStore : Store → String → Option String
  | [], _ => none
  | (k', v') :: rest, k => if k' = k then some v' else lookupStore rest k

def setStore : Store → String → String → Store
  | [], k, v => [(k, v)]
  | (k', v') :: rest, k, v =>
    if k' = k then (k, v) :: rest else (k', v') :: setStore rest k v

def removeStore : Store → String → Store
  | [], _ => []
  | (k', v') :: rest, k =>
    if k' = k then removeStore rest k else (k', v') :: removeStore rest k

/-- `Object.keys(storage)` / `storage.getAllKeys()`. -/
def storeKeys (σ : Store) : List String := σ.map Prod.fst

theorem lookupStore_set (σ : Store) (k v j : String) :
    lookupStore (setStore σ k v) j = if k = j then some v else lookupStore σ j := by
  induction σ with
  | nil => simp [setStore, lookupStore]
  | cons e rest ih =>
    obtain ⟨k', v'⟩ := e
    by_cases h1 : k' = k
    · subst h1
      by_cases h2 : k' = j <;> simp [setStore, lookupStore, h2]
    · by_cases h2 : k' = j
      · subst h2
        have hkj : k ≠ k' := fun h => h1 h.symm
        simp [setStore, lookupStore, h1, hkj]
      · simp [setStore, lookupStore, h1, h2, ih]

theorem lookupStore_remove (σ : Store) (k j : String) :
    lookupStore (removeStore σ k) j = if k = j then none else lookupStore σ j := by
  induction σ with
  | nil => simp [removeStore, lookupStore]
  | cons e rest ih =>
    obtain ⟨k', v'⟩ := e
    by_cases h1 : k' = k
    · subst h1
      by_cases h2 : k' = j
      · subst h2; simp [removeStore, lookupStore, ih]
      · simp [removeStore, lookupStore, h2, ih]
    · by_cases h2 : k' = j
      · subst h2
        have hkj : k ≠ k' := fun h => h1 h.symm
        simp [removeStore, lookupStore, h1, hkj]
      · simp [removeStore, lookupStore, h1, h2, ih]

theorem lookupStore_mem_keys (σ : Store) (k : String) (h : lookupStore σ k ≠ none) :
    k ∈ storeKeys σ := by
  induction σ with
  | nil => simp [lookupStore] at h
  | cons e rest ih =>
    obtain ⟨k', v'⟩ := e
    by_cases h1 : k' = k
    · subst h1; simp [storeKeys]
    · simp only [lookupStore, if_neg h1] at h
      simp only [storeKeys, List.map_cons, List.mem_cons]
      exact Or.inr (ih h)

/-! ## Cookie store model

The browser cookie store is a sequence of (name, value) pairs. Assigning
`document.cookie = str` parses the text before the first `';'` as
`name=value` (name = text before the first `'='`) and upserts that cookie,
or removes it when the assignment carries a past `expires` attribute.
Reading `document.cookie` yields `"n1=v1; n2=v2; ..."`. -/

abbrev CookieJar := List (List Char × List Char)

def upsertJar : CookieJar → List Char × List Char → CookieJar
  | [], p => [p]
  | e :: rest, p => if e.1 = p.1 then p :: rest else e :: upsertJar rest p

def removeJar : CookieJar → List Char → CookieJar
  | [], _ => []
  | e :: rest, n => if e.1 = n then removeJar rest n else e :: removeJar rest n

/-- The `name=value` pair the cookie store extracts from an assigned
cookie string: the text before the first `';'`, split at the first `'='`. -/
def cookiePairOf (cs : List Char) : List Char × List Char :=
  let firstSeg := cs.takeWhile (fun c => !(c = ';'))
  (firstSeg.takeWhile (fun c => !(c = '=')),
   ((firstSeg.dropWhile (fun c => !(c = '='))).drop 1))

/-- Effect on the cookie store of the assignment
`document.cookie = n + "=" + v + ";path=/;[expires=...;]"` performed by
`BrowserStorage.setItemCookie`. A past expiration removes the cookie
(the host treats a past `expires` as immediate deletion); otherwise the
parsed pair is upserted. `expires = none` models an omitted argument. -/
def setCookieJs (jar : CookieJar) (n v : String) (expires : Option Int) : CookieJar :=
  let p := cookiePairOf (n.data ++ '=' :: v.data ++ (";path=/;".data))
  match expires with
  | some e => if e < 0 then removeJar jar p.1 else upsertJar jar p
  | none => upsertJar jar p

def entryText (e : List Char × List Char) : List Char := e.1 ++ '=' :: e.2

/-- The raw string returned by reading `document.cookie`. -/
def serializeJar : CookieJar → List Char
  | [] => []
  | [e] => entryText e
  | e :: rest => entryText e ++ ';' :: ' ' :: serializeJar rest

/-- JS `raw.split(";")`. -/
def splitOnSemi : List Char → List (List Char)
  | [] => [[]]
  | c :: rest =>
    if c = ';' then [] :: splitOnSemi rest
    else
      match splitOnSemi rest with
      | seg :: segs => (c :: seg) :: segs
      | [] => [[c]]

/-- The `while (c.charAt(0) === " ")` trim loop of `getItemCookie`. -/
def trimLeadL (cs : List Char) : List Char := cs.dropWhile (fun c => c = ' ')

/-- The scan loop of `BrowserStorage.getItemCookie`
(src/unnamed/part_001 lines 154-167): find the first `";"`-segment that
starts with `name + "="` and return what follows; `""` when absent. -/
def scanSegs (name : List Char) : List (List Char) → List Char
  | [] => []
  | seg :: rest =>
    let seg' := trimLeadL seg
    if isPrefixL name seg' then seg'.drop name.length else scanSegs name rest

/-- `BrowserStorage.getItemCookie(cName)` against raw cookie text. -/
def getItemCookieRaw (cName : String) (raw : List Char) : String :=
  ⟨scanSegs (cName.data ++ ['=']) (splitOnSemi raw)⟩

/-! ## The cache state and the `BrowserStorage` / `AuthCache` operations
(src/unnamed/part_000 and src/unnamed/part_001)

An `AuthCache` instance together with the browser state it acts on: the
three possible backends (browser-local, browser-session, host-supplied
custom storage) and the document cookie store. `cacheLocation` is fixed at
construction (spec section 4.1). -/

inductive CacheLoc where
  | localStorage : CacheLoc
  | sessionStorage : CacheLoc
  | custom : CacheLoc
deriving DecidableEq

structure Cache where
  clientId : String
  loc : CacheLoc
  localStore : Store
  sessionStore : Store
  customStore : Store
  jar : CookieJar

/-- `this.rollbackEnabled`: hardcoded to `true` in the `AuthCache`
constructor (src/unnamed/part_001 line 219). -/
def rollbackEnabled : Bool := true

/-- `BrowserStorage.getStorage()` selects the active backend. -/
def getStore (c : Cache) : Store :=
  match c.loc with
  | .localStorage => c.localStore
  | .sessionStorage => c.sessionStore
  | .custom => c.customStore

def putStore (c : Cache) (σ : Store) : Cache :=
  match c.loc with
  | .localStorage => { c with localStore := σ }
  | .sessionStorage => { c with sessionStore := σ }
  | .custom => { c with customStore := σ }

theorem getStore_putStore (c : Cache) (σ : Store) : getStore (putStore c σ) = σ := by
  cases h : c.loc <;> simp [getStore, putStore, h]

theorem putStore_jar (c : Cache) (σ : Store) : (putStore c σ).jar = c.jar := by
  cases h : c.loc <;> simp [putStore, h]

theorem putStore_clientId (c : Cache) (σ : Store) :
    (putStore c σ).clientId = c.clientId := by
  cases h : c.loc <;> simp [putStore, h]

theorem putStore_loc (c : Cache) (σ : Store) : (putStore c σ).loc = c.loc := by
  cases h : c.loc <;> simp [putStore, h]

/-! ### Cookie-side methods

`AuthCache` overrides `setItemCookie`/`getItemCookie`; `BrowserStorage`
methods that call `this.setItemCookie` dispatch dynamically to the
`AuthCache` overrides, which namespace the cookie name with
`generateCacheKey` for both schema generations. -/

/-- `BrowserStorage.setItemCookie(cName, cValue, expires)`: builds
`cName + "=" + cValue + ";path=/;[expires=...;]"` and assigns it to
`document.cookie` (src/unnamed/part_001 lines 140-148). Only the text
before the first `';'` and the sign of the expiration affect the store. -/
def bsSetItemCookie (c : Cache) (n v : String) (expires : Option Int) : Cache :=
  { c with jar := setCookieJs c.jar n v expires }

/-- `AuthCache.setItemCookie` (src/unnamed/part_001 lines 401-414). -/
def acSetItemCookie (c : Cache) (cName cValue : String) (expires : Option Int) : Cache :=
  let c1 := bsSetItemCookie c (generateCacheKey c.clientId true cName) cValue expires
  if rollbackEnabled then
    bsSetItemCookie c1 (generateCacheKey c.clientId false cName) cValue expires
  else c1

/-- `AuthCache.getItemCookie` (src/unnamed/part_001 lines 420-422),
via `BrowserStorage.getItemCookie`'s scan of `document.cookie`. -/
def acGetItemCookie (c : Cache) (cName : String) : String :=
  getItemCookieRaw (generateCacheKey c.clientId true cName) (serializeJar c.jar)

/-- `BrowserStorage.clearItemCookie` dispatches to
`AuthCache.setItemCookie(cName, "", -1)`. -/
def acClearItemCookie (c : Cache) (cName : String) : Cache :=
  acSetItemCookie c cName "" (some (-1))

/-- `AuthCache.clearMsalCookie(state)` (src/unnamed/part_001 lines 476-481). -/
def clearMsalCookie (c : Cache) (state : String) : Cache :=
  let c1 := acClearItemCookie c (nonceIdTokenKey ++ resourceDelimiter ++ state)
  let c2 := acClearItemCookie c1 (stateLoginKey ++ resourceDelimiter ++ state)
  let c3 := acClearItemCookie c2 (loginRequestKey ++ resourceDelimiter ++ state)
  acClearItemCookie c3 (stateAcquireTokenKey ++ resourceDelimiter ++ state)

/-! ### Item-level methods -/

/-- `BrowserStorage.setItem(key, value, enableCookieStorage)`
(src/unnamed/part_000 lines 103-109); the cookie write dispatches to the
`AuthCache` override. -/
def bsSetItem (c : Cache) (key value : String) (enableCookieStorage : Bool) : Cache :=
  let c1 := putStore c (setStore (getStore c) key value)
  if enableCookieStorage then acSetItemCookie c1 key value none else c1

/-- `AuthCache.setItem` (src/unnamed/part_001 lines 305-323): writes the
current-schema key, then (rollback enabled) the legacy-schema key. -/
def acSetItem (c : Cache) (key value : String) (enableCookieStorage : Bool) : Cache :=
  let c1 := bsSetItem c (generateCacheKey c.clientId true key) value enableCookieStorage
  if rollbackEnabled then
    bsSetItem c1 (generateCacheKey c.clientId false key) value enableCookieStorage
  else c1

/-- `BrowserStorage.getItem(key, enableCookieStorage)`
(src/unnamed/part_000 lines 116-123): a non-empty (truthy) cookie value
wins when cookie storage is enabled; otherwise the backend is read.
The cookie read dispatches to the `AuthCache` override. -/
def bsGetItem (c : Cache) (key : String) (enableCookieStorage : Bool) : Option String :=
  if enableCookieStorage = true ∧ acGetItemCookie c key ≠ "" then
    some (acGetItemCookie c key)
  else lookupStore (getStore c) key

/-- `AuthCache.getItem` (src/unnamed/part_001 lines 330-335): reads under
the current-schema key only. -/
def acGetItem (c : Cache) (key : String) (enableCookieStorage : Bool) : Option String :=
  bsGetItem c (generateCacheKey c.clientId true key) enableCookieStorage

/-- `BrowserStorage.removeItem`. -/
def bsRemoveItem (c : Cache) (key : String) : Cache :=
  putStore c (removeStore (getStore c) key)

/-- `AuthCache.removeItem` (src/unnamed/part_001 lines 341-346): removes
the current-schema key, then (rollback enabled) the legacy-schema key. -/
def acRemoveItem (c : Cache) (key : String) : Cache :=
  let c1 := bsRemoveItem c (generateCacheKey c.clientId true key)
  if rollbackEnabled then
    bsRemoveItem c1 (generateCacheKey c.clientId false key)
  else c1

/-! ### Scan / reap operations -/

/-- `AuthCache.tokenRenewalInProgress(stateValue)`
(src/unnamed/part_001 lines 466-471): the renewal-status entry for the
state equals the in-progress sentinel. -/
def tokenRenewalInProgress (c : Cache) (stateValue : String) : Bool :=
  match acGetItem c (renewStatusKey ++ resourceDelimiter ++ stateValue) false with
  | some renewStatus => renewStatus == inProgress
  | none => false

/-- In `resetTempCacheItems` (src/unnamed/part_001 line 383) and in
`Storage.removeAcquireTokenEntries` (Storage.ts line 174) the source tests
`!this.tokenRenewalInProgress(state)` WITHOUT awaiting: the guard negates
the truthiness of the `Promise` object itself, which is always truthy. -/
def unawaitedPromiseTruthy : Bool := true

/-- `AuthCache.resetCacheItems` (src/unnamed/part_001 lines 351-366):
enumerate all physical keys and remove (via `super.removeItem`, no
re-namespacing) every key containing the `msal` prefix. -/
def resetCacheItems (c : Cache) : Cache :=
  (storeKeys (getStore c)).foldl
    (fun acc key => if jsContains key cachePrefix then bsRemoveItem acc key else acc) c

/-- `AuthCache.resetTempCacheItems(state)`
(src/unnamed/part_001 lines 371-393): scan all physical keys; for keys
matching the state filter AND passing the (un-awaited) renewal check,
remove the entry (via `this.removeItem`, which re-namespaces), clear its
cookie and the per-state MSAL cookies; finally unconditionally remove the
interaction-status and redirect-request entries. -/
def resetTempCacheItems (c : Cache) (state : String) : Cache :=
  let c1 := (storeKeys (getStore c)).foldl
    (fun acc key =>
      if ((state == "" || jsContains key state) && !unawaitedPromiseTruthy) = true then
        clearMsalCookie (acSetItemCookie (acRemoveItem acc key) key "" (some (-1))) state
      else acc) c
  let c2 := acRemoveItem c1 interactionStatusKey
  acRemoveItem c2 redirectRequestKey

/-! ## A model of JS regex matching (`String.prototype.match`)

`key.match(p)` with a string argument `p` coerces it with `new RegExp(p)`
and searches `key` for a match of the resulting (unanchored) regular
expression; the surrounding `if` only consumes the truthiness of the
result (an array on a match, `null` otherwise). Modelled fragment:
literal characters, `.`, and the quantifiers `*`, `+`, `?` applied to a
single preceding atom. `parseRegex` returns `none` for a pattern outside
the fragment: the host either throws a `SyntaxError` (e.g. a leading
quantifier) or applies regex features — classes, groups, alternation,
anchors, escapes — that the model does not decide. -/

/-- A regex atom of the modelled fragment: a literal character, or `.`
(any character other than a line terminator). -/
inductive RegAtom where
  | lit : Char → RegAtom
  | dot : RegAtom

/-- An atom together with its quantifier: exactly once, `*`, `+`, `?`. -/
inductive RegPiece where
  | once : RegAtom → RegPiece
  | star : RegAtom → RegPiece
  | plus : RegAtom → RegPiece
  | opt : RegAtom → RegPiece

/-- ECMAScript pattern characters carrying a meaning beyond a literal
character (the `SyntaxCharacter` production). -/
def isRegexMeta (c : Char) : Bool :=
  c = '^' || c = '$' || c = '\\' || c = '.' || c = '*' || c = '+' || c = '?'
    || c = '(' || c = ')' || c = '[' || c = ']' || c = '{' || c = '}' || c = '|'

/-- Pattern compiler for the modelled fragment (see the section comment);
`none` for a pattern the model does not cover. -/
def parseRegex : List Char → Option (List RegPiece)
  | [] => some []
  | [c] =>
    if isRegexMeta c && !(c = '.') then none
    else some [RegPiece.once (if c = '.' then RegAtom.dot else RegAtom.lit c)]
  | c :: q :: rest' =>
    if isRegexMeta c && !(c = '.') then none
    else
      let a : RegAtom := if c = '.' then RegAtom.dot else RegAtom.lit c
      if q = '*' then (parseRegex rest').map (fun ps => RegPiece.star a :: ps)
      else if q = '+' then (parseRegex rest').map (fun ps => RegPiece.plus a :: ps)
      else if q = '?' then (parseRegex rest').map (fun ps => RegPiece.opt a :: ps)
      else (parseRegex (q :: rest')).map (fun ps => RegPiece.once a :: ps)

/-- Does the atom accept the character (`.` excludes line terminators)? -/
def matchAtom : RegAtom → Char → Bool
  | RegAtom.lit a, c => a = c
  | RegAtom.dot, c => !(c = '\n' || c = '\r' || c = '\u2028' || c = '\u2029')

/-- Does some prefix of `cs` match the whole piece list? Backtracking
matcher. Every recursive call consumes a piece or an input character, so
the fuel `ps.length + cs.length + 1` supplied by `searchFrom` is never
exhausted and the `false` of the fuel-out branch is never the answer. -/
def matchHere : Nat → List RegPiece → List Char → Bool
  | 0, _, _ => false
  | _ + 1, [], _ => true
  | fuel + 1, RegPiece.once a :: ps, cs =>
    match cs with
    | [] => false
    | c :: cs' => matchAtom a c && matchHere fuel ps cs'
  | fuel + 1, RegPiece.opt a :: ps, cs =>
    matchHere fuel ps cs
      || match cs with
         | [] => false
         | c :: cs' => matchAtom a c && matchHere fuel ps cs'
  | fuel + 1, RegPiece.star a :: ps, cs =>
    matchHere fuel ps cs
      || match cs with
         | [] => false
         | c :: cs' => matchAtom a c && matchHere fuel (RegPiece.star a :: ps) cs'
  | fuel + 1, RegPiece.plus a :: ps, cs =>
    match cs with
    | [] => false
    | c :: cs' => matchAtom a c && matchHere fuel (RegPiece.star a :: ps) cs'

/-- Unanchored search: try a match at every start position (including the
empty suffix, which an all-optional pattern matches). -/
def searchFrom (ps : List RegPiece) : List Char → Bool
  | [] => matchHere (ps.length + 1) ps []
  | c :: cs => matchHere (ps.length + (c :: cs).length + 1) ps (c :: cs) || searchFrom ps cs

/-- JS truthiness of `hay.match(pat)` for a string argument `pat`; `none`
when the pattern falls outside the modelled regex fragment. -/
def jsMatchTruthy (hay pat : String) : Option Bool :=
  match parseRegex pat.data with
  | some ps => some (searchFrom ps hay.data)
  | none => none

/-- The string has no regex metacharacter: `new RegExp` on such a string
compiles to a plain literal-sequence (substring) search. -/
def regexLiteral (s : String) : Bool := s.data.all (fun c => !isRegexMeta c)

/-- Modelled from the spec: `AccessTokenCacheItem` (its module is not under
`src/`) is a pair of JSON-decoded objects — the structured key and the
stored value (spec section 3). -/
structure AccessTokenCacheItem where
  tokenKey : Json
  tokenValue : Json

/-- `AuthCache.getAllAccessTokens(clientId, homeAccountIdentifier)`
(src/unnamed/part_001 lines 429-460). The selection evaluates
`key.match(clientId) && key.match(homeAccountIdentifier)` — JS regex
search (`jsMatchTruthy`) with `&&` short-circuit; the whole call is
`none` when an evaluated pattern falls outside the modelled regex
fragment (a `SyntaxError` would propagate out of the method, the `match`
sitting outside the try/catch). Inside the guard, `JSON.parse` of a
`null` value yields JSON null (JS coerces `null` to `"null"`); a throw
from either parse is caught and the entry skipped. -/
def getAllAccessTokens (c : Cache) (clientId homeAccountIdentifier : String) :
    Option (List AccessTokenCacheItem) :=
  (storeKeys (getStore c)).foldl
    (fun results key =>
      match results with
      | none => none
      | some items =>
        match jsMatchTruthy key clientId with
        | none => none
        | some false => some items
        | some true =>
          match jsMatchTruthy key homeAccountIdentifier with
          | none => none
          | some false => some items
          | some true =>
            let value := acGetItem c key false
            match jsonParse key with
            | none => some items
            | some parseAtKey =>
              match (match value with
                     | some s => jsonParse s
                     | none => some Json.null) with
              | none => some items
              | some parsedValue => some (items ++ [⟨parseAtKey, parsedValue⟩]))
    (some [])

/-! ## The older `Storage` revision (src/lib/msal-core/src/Storage.ts)

This revision namespaces nothing; keys are used raw against the backend.
Constants of its `CacheKeys` / `Constants` modules are not under `src/`;
modelled from the spec: `authority` and `acquireTokenAccount` tags
(spec section 4.3 / 6), renewal-status entry `renewStatus<state>`. -/

def authorityTag : String := "authority"

def acquireTokenAccountTag : String := "acquireTokenAccount"

/-- JS `s.split(d)` for a one-character delimiter, on character lists. -/
def splitOnCharL (d : Char) : List Char → List (List Char)
  | [] => [[]]
  | c :: rest =>
    if c = d then [] :: splitOnCharL d rest
    else
      match splitOnCharL d rest with
      | seg :: segs => (c :: seg) :: segs
      | [] => [[c]]

/-- JS `key.split(Constants.resourceDelimiter)` (delimiter `"|"`). -/
def jsSplitPipe (s : String) : List String :=
  (splitOnCharL '|' s.data).map (fun cs => ⟨cs⟩)

/-- JS `hay.indexOf(nee)`: first occurrence index, `-1` when absent. -/
def jsIndexOfL (nee : List Char) : List Char → Int
  | [] => if isPrefixL nee [] then 0 else -1
  | c :: t =>
    if isPrefixL nee (c :: t) then 0
    else
      let r := jsIndexOfL nee t
      if r = -1 then -1 else r + 1

def jsIndexOf (hay nee : String) : Int := jsIndexOfL nee.data hay.data

structure StorageState where
  store : Store
  jar : CookieJar

def stSetItemCookie (s : StorageState) (n v : String) (expires : Option Int) : StorageState :=
  { s with jar := setCookieJs s.jar n v expires }

def stRemoveItem (s : StorageState) (k : String) : StorageState :=
  { s with store := removeStore s.store k }

/-- `Storage.tokenRenewalInProgress` (Storage.ts lines 188-193):
`!(!renewStatus || renewStatus !== Constants.tokenRenewStatusInProgress)`,
i.e. the entry exists, is truthy and equals the sentinel. -/
def stTokenRenewalInProgress (s : StorageState) (stateValue : String) : Bool :=
  match lookupStore s.store (renewStatusKey ++ stateValue) with
  | some renewStatus => renewStatus == inProgress
  | none => false

/-- `Storage.clearCookie` (Storage.ts lines 244-249). -/
def stClearCookie (s : StorageState) : StorageState :=
  let s1 := stSetItemCookie s nonceIdTokenKey "" (some (-1))
  let s2 := stSetItemCookie s1 stateLoginKey "" (some (-1))
  let s3 := stSetItemCookie s2 loginRequestKey "" (some (-1))
  stSetItemCookie s3 stateAcquireTokenKey "" (some (-1))

/-- `Storage.removeAcquireTokenEntries(state)` (Storage.ts lines 158-186).
Translated faithfully, including:
* the tag test `key.indexOf(CacheKeys.ACQUIRE_TOKEN_ACCOUNT) !== 1`
  (comparing against `1`, not `-1`, as the source does);
* the shadowed inner `state` extracted from the key's second
  `|`-separated segment (`splitKey[1]`, only when it exists);
* the un-awaited `!this.tokenRenewalInProgress(state)` (the negated
  `Promise` object: see `unawaitedPromiseTruthy`);
* the unconditional `clearCookie()` after the scan. -/
def stRemoveAcquireTokenEntries (s : StorageState) (state : String) : StorageState :=
  let s1 := (storeKeys s.store).foldl
    (fun acc key =>
      if ((jsContains key authorityTag || !(jsIndexOf key acquireTokenAccountTag == 1))
          && (state == "" || jsContains key state)) = true then
        match (jsSplitPipe key).get? 1 with
        | some innerState =>
          if (!(innerState == "") && !unawaitedPromiseTruthy) = true then
            let a1 := stRemoveItem acc key
            let a2 := stRemoveItem a1 (renewStatusKey ++ innerState)
            let a3 := stRemoveItem a2 stateLoginKey
            let a4 := stRemoveItem a3 stateAcquireTokenKey
            stSetItemCookie a4 key "" (some (-1))
          else acc
        | none => acc
      else acc) s
  stClearCookie s1

/-! ## Constructors (claim C3)

The host environment seen by a constructor: whether a global `window`
object exists and whether it exposes each named storage area (non-null). -/

structure WindowEnv where
  hasWindow : Bool
  localStoragePresent : Bool
  sessionStoragePresent : Bool

inductive CacheLocArg where
  | localStorage : CacheLocArg
  | sessionStorage : CacheLocArg
  | custom : CacheLocArg
deriving DecidableEq

inductive CtorError where
  | noWindowError : CtorError
  | storageUnsupportedError : CtorError
deriving DecidableEq

/-- `BrowserStorage` constructor of the evolved revision
(src/unnamed/part_000 lines 60-79 and src/unnamed/part_001 lines 59-76):

```
if (!window) { throw createNoWindowObjectError(...); }
if (typeof this.cacheLocation === "string") { ...support check... }
this.cacheLocation = cacheLocation;
```

The support check reads the field `this.cacheLocation` BEFORE the
assignment on the last line; at that point the field is still
`undefined`, so `typeof this.cacheLocation === "string"` is `false`
whatever the argument is. The model keeps the unassigned field explicit
as `none`. -/
def browserStorageCtor (env : WindowEnv) (cacheLocation : CacheLocArg) :
    Except CtorError CacheLocArg :=
  if !env.hasWindow then .error .noWindowError
  else
    let thisCacheLocation : Option CacheLocArg := none
    let supported :=
      match thisCacheLocation with
      | some .localStorage => env.localStoragePresent
      | some .sessionStorage => env.sessionStoragePresent
      | _ => true
    if !supported then .error .storageUnsupportedError
    else .ok cacheLocation

/-- `Storage` constructor of the older revision (Storage.ts lines 60-78),
on a first construction (no singleton instance yet): assigns
`this.cacheLocation = cacheLocation` FIRST, then checks
`window[this.cacheLocation]` for the named backends. -/
def storageCtor (env : WindowEnv) (cacheLocation : CacheLocArg) :
    Except CtorError CacheLocArg :=
  let thisCacheLocation : Option CacheLocArg := some cacheLocation
  let supported :=
    match thisCacheLocation with
    | some .localStorage => env.localStoragePresent
    | some .sessionStorage => env.sessionStoragePresent
    | _ => true
  if !supported then .error .storageUnsupportedError
  else .ok cacheLocation

/-! ## Cookie string construction (claim C10) -/

/-- `Date.prototype.toUTCString` modelled as an uninterpreted rendering of
the millisecond timestamp; only its presence inside the cookie string
matters to the claims. -/
def toUTCStringModel (ms : Int) : String := "<UTC " ++ toString ms ++ ">"

/-- `BrowserStorage.getCookieExpirationTime(cookieLifeDays)`
(src/unnamed/part_001 lines 181-185), with the current time passed
explicitly. -/
def getCookieExpirationTime (nowMs : Int) (cookieLifeDays : Int) : String :=
  toUTCStringModel (nowMs + cookieLifeDays * 24 * 60 * 60 * 1000)

/-- JS numeric truthiness of the optional `expires` argument:
`undefined` and `0` are falsy. -/
def jsTruthyNum : Option Int → Bool
  | none => false
  | some e => !(e == 0)

/-- The cookie string `BrowserStorage.setItemCookie` builds and assigns to
`document.cookie` (src/unnamed/part_000 lines 150-158,
src/unnamed/part_001 lines 140-148). -/
def buildCookieString (nowMs : Int) (cName cValue : String) (expires : Option Int) : String :=
  let cookieStr := cName ++ "=" ++ cValue ++ ";path=/;"
  if jsTruthyNum expires then
    match expires with
    | some e => cookieStr ++ "expires=" ++ getCookieExpirationTime nowMs e ++ ";"
    | none => cookieStr
  else cookieStr

/-! ## Supporting lemmas about the cache operations -/

theorem bsRemoveItem_lookup (c : Cache) (key j : String) :
    lookupStore (getStore (bsRemoveItem c key)) j
      = if key = j then none else lookupStore (getStore c) j := by
  unfold bsRemoveItem
  rw [getStore_putStore, lookupStore_remove]

theorem bsRemoveItem_clientId (c : Cache) (key : String) :
    (bsRemoveItem c key).clientId = c.clientId := by
  unfold bsRemoveItem
  exact putStore_clientId c _

theorem acRemoveItem_lookup (c : Cache) (key j : String) :
    lookupStore (getStore (acRemoveItem c key)) j
      = if generateCacheKey c.clientId true key = j ∨ generateCacheKey c.clientId false key = j
        then none else lookupStore (getStore c) j := by
  unfold acRemoveItem rollbackEnabled
  simp only [if_true]
  rw [bsRemoveItem_lookup, bsRemoveItem_lookup]
  by_cases h1 : generateCacheKey c.clientId true key = j <;>
    by_cases h2 : generateCacheKey c.clientId false key = j <;>
    simp [h1, h2]

theorem acRemoveItem_clientId (c : Cache) (key : String) :
    (acRemoveItem c key).clientId = c.clientId := by
  unfold acRemoveItem rollbackEnabled
  simp only [if_true]
  rw [bsRemoveItem_clientId, bsRemoveItem_clientId]

/-- The scan loop of `resetTempCacheItems` is the identity: its guard
conjoins with the negation of an (always truthy) un-awaited `Promise`. -/
theorem resetTemp_loop_id (state : String) (ks : List String) (c : Cache) :
    ks.foldl
      (fun acc key =>
        if ((state == "" || jsContains key state) && !unawaitedPromiseTruthy) = true then
          clearMsalCookie (acSetItemCookie (acRemoveItem acc key) key "" (some (-1))) state
        else acc) c = c := by
  induction ks generalizing c with
  | nil => rfl
  | cons key ks ih =>
    rw [List.foldl_cons]
    have hcond :
        ((state == "" || jsContains key state) && !unawaitedPromiseTruthy) = false := by
      simp [unawaitedPromiseTruthy]
    rw [hcond]
    simp only [Bool.false_eq_true, if_false]
    exact ih c

/-- `resetTempCacheItems` only removes the two global transient entries. -/
theorem resetTempCacheItems_eq (c : Cache) (state : String) :
    resetTempCacheItems c state
      = acRemoveItem (acRemoveItem c interactionStatusKey) redirectRequestKey := by
  unfold resetTempCacheItems
  rw [resetTemp_loop_id]

/-! ## Claim C1 -/

/-- The physical keys of the two global transient entries that
`resetTempCacheItems` removes unconditionally after its scan. The spec
(section 4.3) distinguishes these two *global* transient keys from the
per-state transient entries associated with a request state. -/
def globalTransientPhysicalKeys (cid : String) : List String :=
  [generateCacheKey cid true interactionStatusKey,
   generateCacheKey cid false interactionStatusKey,
   generateCacheKey cid true redirectRequestKey,
   generateCacheKey cid false redirectRequestKey]

/-- C1: while the renewal-status entry for a request state `S` holds the
in-progress sentinel, `resetTempCacheItems(S)` deletes no per-state
transient entry associated with `S` (a stored entry whose key contains
`S`, other than the two global transient keys): the entry's value is
unchanged by the call. -/
theorem resetTempCacheItems_preserves_inProgress_state_entries
    (c : Cache) (S k : String)
    (hflag : tokenRenewalInProgress c S = true)
    (hassoc : jsContains k S = true)
    (hglobal : k ∉ globalTransientPhysicalKeys c.clientId) :
    lookupStore (getStore (resetTempCacheItems c S)) k = lookupStore (getStore c) k := by
  simp only [globalTransientPhysicalKeys, List.mem_cons, List.not_mem_nil, or_false,
    not_or] at hglobal
  obtain ⟨h1, h2, h3, h4⟩ := hglobal
  rw [resetTempCacheItems_eq, acRemoveItem_lookup, acRemoveItem_clientId, acRemoveItem_lookup]
  have ho1 : ¬(generateCacheKey c.clientId true redirectRequestKey = k
      ∨ generateCacheKey c.clientId false redirectRequestKey = k) := by
    rintro (h | h)
    · exact h3 h.symm
    · exact h4 h.symm
  have ho2 : ¬(generateCacheKey c.clientId true interactionStatusKey = k
      ∨ generateCacheKey c.clientId false interactionStatusKey = k) := by
    rintro (h | h)
    · exact h1 h.symm
    · exact h2 h.symm
  rw [if_neg ho1, if_neg ho2]

def cacheC1 : Cache :=
  ⟨"c", .localStorage,
   [("msal.c.renewStatus|sA", "in progress"), ("msal.c.authority|sA", "authA")],
   [], [], []⟩

/-- Witness for C1 at a concrete state: the renewal flag for `"sA"` is in
progress and the authority entry tagged with `"sA"` survives unchanged. -/
theorem resetTempCacheItems_preserves_inProgress_state_entries_witness :
    tokenRenewalInProgress cacheC1 "sA" = true
    ∧ jsContains "msal.c.authority|sA" "sA" = true
    ∧ "msal.c.authority|sA" ∉ globalTransientPhysicalKeys cacheC1.clientId
    ∧ lookupStore (getStore (resetTempCacheItems cacheC1 "sA")) "msal.c.authority|sA"
        = lookupStore (getStore cacheC1) "msal.c.authority|sA" :=
  ⟨by decide, by decide, by decide,
   resetTempCacheItems_preserves_inProgress_state_entries cacheC1 "sA" "msal.c.authority|sA"
     (by decide) (by decide) (by decide)⟩

/-! ## Claim C2 -/

def cacheC2 : Cache :=
  ⟨"c", .localStorage,
   [("msal.c.authority|stateA", "authA"), ("msal.c.interactionStatus", "x")],
   [], [], []⟩

/-- C2 fails on the code: with the renewal flag for `"stateA"` clear, the
`"stateA"`-tagged entry is NOT removed by `resetTempCacheItems("stateA")`
(the guard negates an un-awaited `Promise`, so the scan removes nothing),
while the two global transient entries are removed as described. -/
theorem resetTempCacheItems_skips_clearedFlag_state_entries :
    tokenRenewalInProgress cacheC2 "stateA" = false
    ∧ jsContains "msal.c.authority|stateA" "stateA" = true
    ∧ lookupStore (getStore (resetTempCacheItems cacheC2 "stateA")) "msal.c.authority|stateA"
        = some "authA"
    ∧ lookupStore (getStore (resetTempCacheItems cacheC2 "stateA")) "msal.c.interactionStatus"
        = none := by
  refine ⟨by decide, by decide, ?_, ?_⟩ <;> decide

/-! ## Claim C3 -/

/-- C3 fails on the evolved revision: with a window that exposes NO
storage area, requesting the `localStorage` or `sessionStorage` backend
succeeds instead of raising the storage-unsupported error, because the
constructor's support check reads `this.cacheLocation` before assigning
it. The older `Storage.ts` revision (which assigns first) raises the
error exactly as the claim states, and succeeds when the area is present
or a host-supplied backend is passed. -/
theorem browserStorageCtor_missing_backend_no_error :
    browserStorageCtor ⟨true, false, false⟩ .localStorage = .ok .localStorage
    ∧ browserStorageCtor ⟨true, false, false⟩ .sessionStorage = .ok .sessionStorage
    ∧ storageCtor ⟨true, false, false⟩ .localStorage = .error .storageUnsupportedError
    ∧ storageCtor ⟨true, false, false⟩ .sessionStorage = .error .storageUnsupportedError
    ∧ storageCtor ⟨true, true, true⟩ .localStorage = .ok .localStorage
    ∧ storageCtor ⟨true, false, false⟩ .custom = .ok .custom :=
  ⟨rfl, rfl, rfl, rfl, rfl, rfl⟩

/-! ## Claim C6 -/

theorem isPrefixL_cons (a : Char) (as bs : List Char) (h : isPrefixL (a :: as) bs = true) :
    ∃ bs', bs = a :: bs' ∧ isPrefixL as bs' = true := by
  cases bs with
  | nil => simp [isPrefixL] at h
  | cons b bs' =>
    by_cases hab : a = b
    · subst hab
      exact ⟨bs', rfl, by simpa [isPrefixL] using h⟩
    · simp [isPrefixL, hab] at h

/-- C6: `generateCacheKey` is idempotent — applying it (either generation)
to its own output returns the output unchanged; in particular a key that
parses as JSON, or that starts with the namespace prefix or the
recognized legacy-library prefix, is returned unchanged. -/
theorem generateCacheKey_idempotent (cid : String) (b b' : Bool) (key : String) :
    generateCacheKey cid b' (generateCacheKey cid b key) = generateCacheKey cid b key
    ∧ ((jsonParse key).isSome = true → generateCacheKey cid b key = key)
    ∧ (jsStartsWith key cachePrefix = true → generateCacheKey cid b key = key)
    ∧ (jsStartsWith key adalIdToken = true → generateCacheKey cid b key = key) := by
  refine ⟨generateCacheKey_fix cid cid b b' key, ?_, ?_, ?_⟩
  · intro h
    obtain ⟨j, hj⟩ := Option.isSome_iff_exists.mp h
    unfold generateCacheKey
    rw [hj]
  · intro h
    have h2 : isPrefixL ('m' :: ['s', 'a', 'l']) key.data = true := h
    obtain ⟨bs', hbs, -⟩ := isPrefixL_cons _ _ _ h2
    unfold generateCacheKey
    rw [jsonParse_m_none key bs' hbs]
    simp [h]
  · intro h
    have h2 : isPrefixL ('a' :: "dal.idtoken".data) key.data = true := h
    obtain ⟨bs', hbs, -⟩ := isPrefixL_cons _ _ _ h2
    unfold generateCacheKey
    rw [jsonParse_a_none key bs' hbs]
    simp [h]

/-- Witness for C6 at concrete keys: a structured (JSON) key, an
`msal.`-prefixed key, the ADAL key, and a plain key's namespaced output. -/
theorem generateCacheKey_idempotent_witness :
    (jsonParse "\x7b\"a\":1\x7d").isSome = true
    ∧ generateCacheKey "c" true "\x7b\"a\":1\x7d" = "\x7b\"a\":1\x7d"
    ∧ jsStartsWith "msal.x" cachePrefix = true
    ∧ generateCacheKey "c" true "msal.x" = "msal.x"
    ∧ jsStartsWith "adal.idtoken" adalIdToken = true
    ∧ generateCacheKey "c" false "adal.idtoken" = "adal.idtoken"
    ∧ generateCacheKey "c" false (generateCacheKey "c" true "authority|s")
        = generateCacheKey "c" true "authority|s" :=
  ⟨by decide, (generateCacheKey_idempotent "c" true true "\x7b\"a\":1\x7d").2.1 (by decide),
   by decide, (generateCacheKey_idempotent "c" true true "msal.x").2.2.1 (by decide),
   by decide, (generateCacheKey_idempotent "c" false true "adal.idtoken").2.2.2 (by decide),
   (generateCacheKey_idempotent "c" true false "authority|s").1⟩

/-! ## Claim C7 -/

theorem resetCache_loop_lookup (p : String → Bool) (ks : List String) (c : Cache) (k : String) :
    lookupStore
      (getStore (ks.foldl (fun acc key => if p key = true then bsRemoveItem acc key else acc) c)) k
      = if p k = true ∧ k ∈ ks then none else lookupStore (getStore c) k := by
  induction ks generalizing c with
  | nil => simp
  | cons key ks ih =>
    rw [List.foldl_cons]
    by_cases hp : p key = true
    · rw [if_pos hp, ih, bsRemoveItem_lookup]
      by_cases hk : k = key
      · subst hk
        simp [hp]
      · have hk' : key ≠ k := fun h => hk h.symm
        simp [hk, hk']
    · rw [if_neg hp, ih]
      by_cases hk : k = key
      · subst hk
        simp [hp]
      · simp [hk]

/-- C7: `resetCacheItems` removes exactly the physical keys containing the
namespace prefix as a substring; every other key keeps its value. -/
theorem resetCacheItems_removes_exactly_prefixed (c : Cache) (k : String) :
    lookupStore (getStore (resetCacheItems c)) k
      = if jsContains k cachePrefix = true then none else lookupStore (getStore c) k := by
  unfold resetCacheItems
  rw [resetCache_loop_lookup (fun key => jsContains key cachePrefix)]
  by_cases hc : jsContains k cachePrefix = true
  · by_cases hm : k ∈ storeKeys (getStore c)
    · simp [hc, hm]
    · simp only [hc, hm, and_false, if_false, if_pos]
      by_contra h
      exact hm (lookupStore_mem_keys _ _ h)
  · simp [hc]

/-! ## Claim C9 -/

def storageC9 : StorageState := ⟨[("authority|stateA", "v")], []⟩

/-- C9 fails on the code: the entry `authority|stateA` is tagged as an
authority entry, contains the requested state, and its renewal flag is
false — yet `removeAcquireTokenEntries("stateA")` does not remove it (nor
its renewal-status entry), because the renewal check negates an
un-awaited `Promise` and therefore never passes. -/
theorem removeAcquireTokenEntries_skips_eligible_entry :
    jsContains "authority|stateA" authorityTag = true
    ∧ (jsSplitPipe "authority|stateA").get? 1 = some "stateA"
    ∧ stTokenRenewalInProgress storageC9 "stateA" = false
    ∧ lookupStore (stRemoveAcquireTokenEntries storageC9 "stateA").store "authority|stateA"
        = some "v" := by
  refine ⟨by decide, by decide, by decide, ?_⟩
  decide

/-! ## Claim C10 -/

/-- C10: `setItemCookie` appends no `expires` attribute when the
expiration argument is `0` or absent (a session cookie); any non-zero
expiration — including the `-1` used by `clearItemCookie` — appends the
attribute computed from that many days. -/
theorem setItemCookie_expires_attribute (nowMs : Int) (n v : String) :
    buildCookieString nowMs n v (some 0) = n ++ "=" ++ v ++ ";path=/;"
    ∧ buildCookieString nowMs n v none = n ++ "=" ++ v ++ ";path=/;"
    ∧ (∀ e : Int, e ≠ 0 →
        buildCookieString nowMs n v (some e)
          = n ++ "=" ++ v ++ ";path=/;" ++ "expires="
              ++ getCookieExpirationTime nowMs e ++ ";")
    ∧ buildCookieString nowMs n "" (some (-1))
        = n ++ "=" ++ "" ++ ";path=/;" ++ "expires="
            ++ getCookieExpirationTime nowMs (-1) ++ ";" := by
  refine ⟨?_, ?_, ?_, ?_⟩
  · simp [buildCookieString, jsTruthyNum]
  · simp [buildCookieString, jsTruthyNum]
  · intro e he
    simp [buildCookieString, jsTruthyNum, he]
  · simp [buildCookieString, jsTruthyNum]

/-- Witness for C10 at concrete inputs, including the non-zero case. -/
theorem setItemCookie_expires_attribute_witness :
    ((2 : Int) ≠ 0)
    ∧ buildCookieString 0 "n" "v" (some 2)
        = "n" ++ "=" ++ "v" ++ ";path=/;" ++ "expires=" ++ getCookieExpirationTime 0 2 ++ ";"
    ∧ buildCookieString 0 "n" "v" (some 0) = "n" ++ "=" ++ "v" ++ ";path=/;" :=
  ⟨by decide, (setItemCookie_expires_attribute 0 "n" "v").2.2.1 2 (by decide),
   (setItemCookie_expires_attribute 0 "n" "v").1⟩

/-! ## Claim C4 -/

theorem generateCacheKey_of_parse (cid : String) (b : Bool) (key : String)
    (j : Json) (h : jsonParse key = some j) :
    generateCacheKey cid b key = key := by
  unfold generateCacheKey
  rw [h]

theorem generateCacheKey_of_plain (cid : String) (key : String)
    (hjson : jsonParse key = none)
    (hp1 : jsStartsWith key cachePrefix = false)
    (hp2 : jsStartsWith key adalIdToken = false) :
    generateCacheKey cid true key = cachePrefix ++ "." ++ cid ++ "." ++ key
    ∧ generateCacheKey cid false key = cachePrefix ++ "." ++ key := by
  constructor <;> unfold generateCacheKey <;> rw [hjson] <;> simp [hp1, hp2]

theorem currentKey_ne_legacyKey (cid k : String) :
    cachePrefix ++ "." ++ cid ++ "." ++ k ≠ cachePrefix ++ "." ++ k := by
  intro heq
  have hlen := congrArg (fun s => s.data.length) heq
  simp only [data_append, List.length_append] at hlen
  have hdot : (".".data).length = 1 := by decide
  rw [hdot] at hlen
  omega

theorem bsSetItem_false_lookup (c : Cache) (key value j : String) :
    lookupStore (getStore (bsSetItem c key value false)) j
      = if key = j then some value else lookupStore (getStore c) j := by
  unfold bsSetItem
  simp only [Bool.false_eq_true, if_false]
  rw [getStore_putStore, lookupStore_set]

theorem acSetItem_false_lookup (c : Cache) (key value j : String) :
    lookupStore (getStore (acSetItem c key value false)) j
      = if generateCacheKey c.clientId true key = j ∨ generateCacheKey c.clientId false key = j
        then some value else lookupStore (getStore c) j := by
  unfold acSetItem rollbackEnabled
  simp only [if_true]
  rw [bsSetItem_false_lookup, bsSetItem_false_lookup]
  by_cases h1 : generateCacheKey c.clientId true key = j <;>
    by_cases h2 : generateCacheKey c.clientId false key = j <;>
    simp [h1, h2]

/-- C4 (amended): in migration mode, `setItem(k, v)` creates exactly the
two physical entries `msal.<clientId>.<k>` and `msal.<k>` (both holding
`v`, all other keys untouched) for every logical key `k` that neither
parses as JSON *nor already carries the namespace or legacy-library
prefix*; `removeItem(k)` deletes both. When `k` parses as JSON, exactly
one physical entry (at `k` itself) is created. -/
theorem setItem_migration_two_entries (c : Cache) (k v : String) :
    (jsonParse k = none → jsStartsWith k cachePrefix = false →
      jsStartsWith k adalIdToken = false →
      (cachePrefix ++ "." ++ c.clientId ++ "." ++ k ≠ cachePrefix ++ "." ++ k
       ∧ lookupStore (getStore (acSetItem c k v false))
           (cachePrefix ++ "." ++ c.clientId ++ "." ++ k) = some v
       ∧ lookupStore (getStore (acSetItem c k v false)) (cachePrefix ++ "." ++ k) = some v
       ∧ (∀ j, j ≠ cachePrefix ++ "." ++ c.clientId ++ "." ++ k →
            j ≠ cachePrefix ++ "." ++ k →
            lookupStore (getStore (acSetItem c k v false)) j = lookupStore (getStore c) j)
       ∧ lookupStore (getStore (acRemoveItem c k))
           (cachePrefix ++ "." ++ c.clientId ++ "." ++ k) = none
       ∧ lookupStore (getStore (acRemoveItem c k)) (cachePrefix ++ "." ++ k) = none))
    ∧ ((jsonParse k).isSome = true →
      (lookupStore (getStore (acSetItem c k v false)) k = some v
       ∧ (∀ j, j ≠ k →
            lookupStore (getStore (acSetItem c k v false)) j = lookupStore (getStore c) j))) := by
  constructor
  · intro hjson hp1 hp2
    obtain ⟨hA, hB⟩ := generateCacheKey_of_plain c.clientId k hjson hp1 hp2
    refine ⟨currentKey_ne_legacyKey c.clientId k, ?_, ?_, ?_, ?_, ?_⟩
    · rw [acSetItem_false_lookup, hA, hB, if_pos (Or.inl rfl)]
    · rw [acSetItem_false_lookup, hA, hB, if_pos (Or.inr rfl)]
    · intro j hj1 hj2
      rw [acSetItem_false_lookup, hA, hB,
        if_neg (fun hor => hor.elim (fun h => hj1 h.symm) (fun h => hj2 h.symm))]
    · rw [acRemoveItem_lookup, hA, hB, if_pos (Or.inl rfl)]
    · rw [acRemoveItem_lookup, hA, hB, if_pos (Or.inr rfl)]
  · intro h
    obtain ⟨j, hj⟩ := Option.isSome_iff_exists.mp h
    have hA := generateCacheKey_of_parse c.clientId true k j hj
    have hB := generateCacheKey_of_parse c.clientId false k j hj
    constructor
    · rw [acSetItem_false_lookup, hA, hB, if_pos (Or.inl rfl)]
    · intro j' hj'
      rw [acSetItem_false_lookup, hA, hB,
        if_neg (fun hor => hor.elim (fun h => hj' h.symm) (fun h => hj' h.symm))]

def cacheC4 : Cache := ⟨"c", .localStorage, [], [], [], []⟩

/-- C4 as stated fails: the non-structured logical key `"msal.x"` already
carries the namespace prefix, so `setItem` writes ONE entry at
`"msal.x"` itself — neither claimed physical key
`"msal.c.msal.x"` nor `"msal.msal.x"` is created. -/
theorem setItem_prefixed_key_not_duplicated :
    jsonParse "msal.x" = none
    ∧ lookupStore (getStore (acSetItem cacheC4 "msal.x" "v" false)) "msal.c.msal.x" = none
    ∧ lookupStore (getStore (acSetItem cacheC4 "msal.x" "v" false)) "msal.msal.x" = none
    ∧ lookupStore (getStore (acSetItem cacheC4 "msal.x" "v" false)) "msal.x" = some "v" := by
  refine ⟨rfl, ?_, ?_, ?_⟩ <;> decide

/-- Witness for C4 (amended) at a plain key and a structured key. -/
theorem setItem_migration_two_entries_witness :
    (jsonParse "authority|s" = none
     ∧ jsStartsWith "authority|s" cachePrefix = false
     ∧ jsStartsWith "authority|s" adalIdToken = false
     ∧ lookupStore (getStore (acSetItem cacheC4 "authority|s" "v" false))
         (cachePrefix ++ "." ++ cacheC4.clientId ++ "." ++ "authority|s") = some "v"
     ∧ lookupStore (getStore (acSetItem cacheC4 "authority|s" "v" false))
         (cachePrefix ++ "." ++ "authority|s") = some "v")
    ∧ ((jsonParse "\x7b\"a\":1\x7d").isSome = true
       ∧ lookupStore (getStore (acSetItem cacheC4 "\x7b\"a\":1\x7d" "w" false)) "\x7b\"a\":1\x7d"
           = some "w") := by
  constructor
  · refine ⟨rfl, by decide, by decide, ?_, ?_⟩
    · exact ((setItem_migration_two_entries cacheC4 "authority|s" "v").1
        rfl (by decide) (by decide)).2.1
    · exact ((setItem_migration_two_entries cacheC4 "authority|s" "v").1
        rfl (by decide) (by decide)).2.2.1
  · refine ⟨by decide, ?_⟩
    exact ((setItem_migration_two_entries cacheC4 "\x7b\"a\":1\x7d" "w").2 (by decide)).1

/-! ## Claim C8 -/

/-- Per-key accumulator step of `getAllAccessTokens`, as a function of the
key and the (optional) value `this.getItem` returned for it. -/
def accessTokenOfKey (cid hai : String) (key : String) (val : Option String) :
    Option AccessTokenCacheItem :=
  if jsContains key cid && jsContains key hai then
    match jsonParse key with
    | none => none
    | some jk =>
      match (match val with | some s => jsonParse s | none => some Json.null) with
      | none => none
      | some jv => some ⟨jk, jv⟩
  else none

/-- Spec-side decode of a stored entry: keep it when its key contains both
identifiers and both its key and its value JSON-decode. -/
def entryDecode (cid hai : String) (e : String × String) : Option AccessTokenCacheItem :=
  if jsContains e.1 cid && jsContains e.1 hai then
    match jsonParse e.1, jsonParse e.2 with
    | some jk, some jv => some ⟨jk, jv⟩
    | _, _ => none
  else none

theorem foldl_toList_filterMap {α β : Type} (st : List β → α → List β) (f : α → Option β)
    (h : ∀ acc key, st acc key = acc ++ (f key).toList) (ks : List α) (acc : List β) :
    ks.foldl st acc = acc ++ ks.filterMap f := by
  induction ks generalizing acc with
  | nil => simp
  | cons key ks ih =>
    rw [List.foldl_cons, h, ih, List.filterMap_cons]
    cases hf : f key <;> simp [Option.toList, hf]

theorem acGetItem_false_of_parse (c : Cache) (key : String) (j : Json)
    (hj : jsonParse key = some j) :
    acGetItem c key false = lookupStore (getStore c) key := by
  unfold acGetItem bsGetItem
  rw [generateCacheKey_of_parse _ _ _ _ hj]
  simp

theorem filterMap_keys_entries (σ : Store)
    (G : String → Option String → Option AccessTokenCacheItem)
    (hnd : (storeKeys σ).Nodup) :
    (storeKeys σ).filterMap (fun k => G k (lookupStore σ k))
      = σ.filterMap (fun e => G e.1 (some e.2)) := by
  induction σ with
  | nil => simp [storeKeys]
  | cons e rest ih =>
    obtain ⟨k0, v0⟩ := e
    simp only [storeKeys, List.map_cons, List.nodup_cons] at hnd
    obtain ⟨hnotin, hnd'⟩ := hnd
    simp only [storeKeys, List.map_cons, List.filterMap_cons]
    have hhead : lookupStore ((k0, v0) :: rest) k0 = some v0 := by simp [lookupStore]
    have htail :
        (List.map Prod.fst rest).filterMap (fun k => G k (lookupStore ((k0, v0) :: rest) k))
          = (List.map Prod.fst rest).filterMap (fun k => G k (lookupStore rest k)) := by
      apply List.filterMap_congr
      intro k hk
      have hne : k0 ≠ k := fun h => hnotin (h ▸ hk)
      simp [lookupStore, hne]
    have ih' := ih hnd'
    simp only [storeKeys] at ih'
    rw [hhead, htail, ih']

theorem parseRegex_literal (xs : List Char) (h : ∀ c ∈ xs, isRegexMeta c = false) :
    parseRegex xs = some (xs.map (fun c => RegPiece.once (RegAtom.lit c))) := by
  induction xs with
  | nil => rfl
  | cons c rest ih =>
    have hc : isRegexMeta c = false := h c (List.mem_cons_self _ _)
    have hcdot : ¬(c = '.') := fun he => by rw [he] at hc; exact absurd hc (by decide)
    cases rest with
    | nil =>
      simp only [parseRegex, hc, Bool.false_and, if_neg hcdot]
      rfl
    | cons q rest' =>
      have hq : isRegexMeta q = false := h q (List.mem_cons_of_mem _ (List.mem_cons_self _ _))
      have hq1 : ¬(q = '*') := fun he => by rw [he] at hq; exact absurd hq (by decide)
      have hq2 : ¬(q = '+') := fun he => by rw [he] at hq; exact absurd hq (by decide)
      have hq3 : ¬(q = '?') := fun he => by rw [he] at hq; exact absurd hq (by decide)
      have ih' := ih (fun d hd => h d (List.mem_cons_of_mem _ hd))
      simp only [parseRegex, hc, Bool.false_and, if_neg hcdot, if_neg hq1, if_neg hq2,
        if_neg hq3, ih', Option.map_some, List.map_cons]
      rfl

theorem matchHere_literal (xs : List Char) : ∀ (fuel : Nat) (cs : List Char),
    xs.length < fuel →
    matchHere fuel (xs.map (fun c => RegPiece.once (RegAtom.lit c))) cs = isPrefixL xs cs := by
  induction xs with
  | nil =>
    intro fuel cs h
    cases fuel with
    | zero => exact absurd h (by omega)
    | succ n => rfl
  | cons x xs ih =>
    intro fuel cs h
    cases fuel with
    | zero => exact absurd h (by omega)
    | succ n =>
      cases cs with
      | nil => rfl
      | cons c cs' =>
        have h' : xs.length < n := by
          simp only [List.length_cons] at h; omega
        simp only [List.map_cons, matchHere, matchAtom, isPrefixL, ih n cs' h']
        by_cases hxc : x = c <;> simp [hxc]

theorem searchFrom_literal (xs : List Char) : ∀ hay : List Char,
    searchFrom (xs.map (fun c => RegPiece.once (RegAtom.lit c))) hay = isInfixL xs hay := by
  intro hay
  induction hay with
  | nil =>
    simp only [searchFrom]
    rw [matchHere_literal xs _ [] (by simp)]
    rfl
  | cons c cs ih =>
    simp only [searchFrom]
    rw [matchHere_literal xs _ (c :: cs) (by simp; omega), ih]
    rfl

/-- On a metacharacter-free pattern, JS regex search coincides with the
substring-occurrence test. -/
theorem jsMatchTruthy_literal (hay pat : String) (h : regexLiteral pat = true) :
    jsMatchTruthy hay pat = some (jsContains hay pat) := by
  have h' : ∀ c ∈ pat.data, isRegexMeta c = false := by
    intro c hc
    have := List.all_eq_true.mp h c hc
    simpa using this
  unfold jsMatchTruthy jsContains
  rw [parseRegex_literal pat.data h']
  show some (searchFrom (pat.data.map (fun c => RegPiece.once (RegAtom.lit c))) hay.data)
    = some (isInfixL pat.data hay.data)
  rw [searchFrom_literal]

theorem foldl_option_some {α β : Type} (F : Option (List β) → α → Option (List β))
    (G : List β → α → List β)
    (h : ∀ r k, F (some r) k = some (G r k)) :
    ∀ (ks : List α) (acc : List β), ks.foldl F (some acc) = some (ks.foldl G acc) := by
  intro ks
  induction ks with
  | nil => intro acc; rfl
  | cons k ks ih =>
    intro acc
    rw [List.foldl_cons, h, List.foldl_cons, ih]

/-- C8 (amended): on a backend without duplicate physical keys, and for
identifiers free of regex metacharacters — `key.match(id)` coerces `id`
with `new RegExp`, which on such identifiers compiles a plain
literal-sequence search — `getAllAccessTokens(clientId,
homeAccountIdentifier)` returns exactly the items decoded from the
stored entries whose key contains both identifiers as substrings; an
entry whose key or value fails JSON decoding contributes nothing (the
failure is swallowed), and the scan never fails. -/
theorem getAllAccessTokens_spec (c : Cache) (cid hai : String)
    (hcid : regexLiteral cid = true) (hhai : regexLiteral hai = true)
    (hnd : (storeKeys (getStore c)).Nodup) :
    getAllAccessTokens c cid hai
      = some ((getStore c).filterMap (entryDecode cid hai)) := by
  unfold getAllAccessTokens
  have hstep : ∀ (items : List AccessTokenCacheItem) (key : String),
      (fun results key =>
        match results with
        | none => none
        | some items =>
          match jsMatchTruthy key cid with
          | none => none
          | some false => some items
          | some true =>
            match jsMatchTruthy key hai with
            | none => none
            | some false => some items
            | some true =>
              let value := acGetItem c key false
              match jsonParse key with
              | none => some items
              | some parseAtKey =>
                match (match value with
                       | some s => jsonParse s
                       | none => some Json.null) with
                | none => some items
                | some parsedValue => some (items ++ [⟨parseAtKey, parsedValue⟩]))
        (some items) key
        = some (items ++ (accessTokenOfKey cid hai key (acGetItem c key false)).toList) := by
    intro items key
    simp only
    rw [jsMatchTruthy_literal key cid hcid, jsMatchTruthy_literal key hai hhai]
    cases hb1 : jsContains key cid with
    | false => simp [accessTokenOfKey, hb1]
    | true =>
      cases hb2 : jsContains key hai with
      | false => simp [accessTokenOfKey, hb1, hb2]
      | true =>
        cases hk : jsonParse key with
        | none => simp [accessTokenOfKey, hb1, hb2, hk]
        | some jk =>
          cases hv : (match acGetItem c key false with
                      | some s => jsonParse s
                      | none => some Json.null) with
          | none => simp [accessTokenOfKey, hb1, hb2, hk, hv]
          | some jv => simp [accessTokenOfKey, hb1, hb2, hk, hv]
  rw [foldl_option_some _ _ hstep (storeKeys (getStore c)) []]
  congr 1
  rw [foldl_toList_filterMap _ _ (fun acc key => rfl), List.nil_append]
  have hG1 : ∀ key,
      accessTokenOfKey cid hai key (acGetItem c key false)
        = accessTokenOfKey cid hai key (lookupStore (getStore c) key) := by
    intro key
    unfold accessTokenOfKey
    cases hk : jsonParse key with
    | none => rfl
    | some jk => rw [acGetItem_false_of_parse c key jk hk]
  rw [List.filterMap_congr (fun key _ => hG1 key)]
  rw [filterMap_keys_entries (getStore c) (accessTokenOfKey cid hai) hnd]
  apply List.filterMap_congr
  intro e _
  unfold accessTokenOfKey entryDecode
  cases hk : jsonParse e.1 with
  | none => cases hv : jsonParse e.2 <;> simp [hv]
  | some jk => cases hv : jsonParse e.2 <;> simp [hv]

def cacheC8 : Cache :=
  ⟨"c", .localStorage,
   [("\x7b\"clientId\":\"app1\",\"homeAccountIdentifier\":\"acct1\"\x7d", "\x7b\"accessToken\":\"tok\"\x7d"),
    ("app1acct1garbage", "notjson"),
    ("unrelated", "x")], [], [], []⟩

/-- Witness for C8 at a concrete backend holding one decodable matching
entry, one matching entry with a malformed key, and one foreign entry;
both identifiers are free of regex metacharacters. -/
theorem getAllAccessTokens_spec_witness :
    regexLiteral "app1" = true
    ∧ regexLiteral "acct1" = true
    ∧ (storeKeys (getStore cacheC8)).Nodup
    ∧ getAllAccessTokens cacheC8 "app1" "acct1"
        = some ((getStore cacheC8).filterMap (entryDecode "app1" "acct1")) :=
  ⟨by decide, by decide, by decide,
   getAllAccessTokens_spec cacheC8 "app1" "acct1" (by decide) (by decide) (by decide)⟩

/-- A backend whose sole entry is an access-token record for the home
account identifier `uid+utid` — a realistic shape, those identifiers
being built from base64 text that can carry `+`, `.` and `=`. Its key
contains both identifiers as substrings and both its key and its value
JSON-decode. -/
def cacheC8x : Cache :=
  ⟨"c", .localStorage,
   [("\x7b\"clientId\":\"app1\",\"homeAccountIdentifier\":\"uid+utid\"\x7d",
     "\x7b\"accessToken\":\"tok\"\x7d")], [], [], []⟩

/-- C8, counterexample to the quantification over every identifier:
`key.match(id)` applies regex semantics, so for `homeAccountIdentifier =
"uid+utid"` the pattern reads "`ui`, one or more `d`, `utid`" and does
not match a key containing the literal text `uid+utid`. The backend's
sole entry contains both identifiers as substrings and both its key and
its value JSON-decode, yet the call returns the empty list rather than
the one-item list the claim requires. -/
theorem getAllAccessTokens_regex_mismatch :
    jsContains "\x7b\"clientId\":\"app1\",\"homeAccountIdentifier\":\"uid+utid\"\x7d"
        "app1" = true
    ∧ jsContains "\x7b\"clientId\":\"app1\",\"homeAccountIdentifier\":\"uid+utid\"\x7d"
        "uid+utid" = true
    ∧ (jsonParse "\x7b\"clientId\":\"app1\",\"homeAccountIdentifier\":\"uid+utid\"\x7d").isSome
        = true
    ∧ (jsonParse "\x7b\"accessToken\":\"tok\"\x7d").isSome = true
    ∧ ((getStore cacheC8x).filterMap (entryDecode "app1" "uid+utid")).length = 1
    ∧ getAllAccessTokens cacheC8x "app1" "uid+utid" = some [] :=
  ⟨by decide, by decide, by rfl, by rfl, by rfl, by rfl⟩

/-! ## Claim C5: infrastructure

The round-trip through the cookie mirror needs an analysis of the cookie
store after the four cookie writes of `setItem`, and of the
`getItemCookie` scan over its serialization. -/

theorem string_mk_data (s : String) : String.mk s.data = s := by
  cases s; rfl

theorem takeWhile_append_stop (p : Char → Bool) (d : Char) (hd : p d = false)
    (xs ys : List Char) : ((xs ++ d :: ys).takeWhile p) = xs.takeWhile p := by
  induction xs with
  | nil => simp [List.takeWhile, hd]
  | cons a as ih =>
    by_cases ha : p a = true
    · simp [List.takeWhile_cons, ha, ih]
    · simp only [Bool.not_eq_true] at ha
      simp [List.takeWhile_cons, ha]

theorem takeWhile_append_all (p : Char → Bool) (xs ys : List Char)
    (hx : ∀ x ∈ xs, p x = true) :
    ((xs ++ ys).takeWhile p) = xs ++ ys.takeWhile p := by
  induction xs with
  | nil => simp
  | cons a as ih =>
    have ha := hx a (List.mem_cons_self a as)
    simp [List.takeWhile_cons, ha, ih (fun x hx' => hx x (List.mem_cons_of_mem a hx'))]

theorem takeWhile_all_of_notMem (d : Char) (xs : List Char) (h : d ∉ xs) :
    xs.takeWhile (fun c => !decide (c = d)) = xs := by
  induction xs with
  | nil => rfl
  | cons a as ih =>
    have ha : a ≠ d := fun he => h (he ▸ List.mem_cons_self a as)
    simp [List.takeWhile_cons, ha, ih (fun hm => h (List.mem_cons_of_mem a hm))]

theorem dropWhile_ne_cons (d : Char) (cs : List Char) (h : d ∈ cs) :
    ∃ rest, cs.dropWhile (fun c => !decide (c = d)) = d :: rest := by
  induction cs with
  | nil => simp at h
  | cons a as ih =>
    by_cases ha : a = d
    · subst ha
      exact ⟨as, by simp [List.dropWhile_cons]⟩
    · have h' : d ∈ as := by
        rcases List.mem_cons.mp h with he | hm
        · exact absurd he.symm ha
        · exact hm
      obtain ⟨rest, hr⟩ := ih h'
      exact ⟨rest, by simp [List.dropWhile_cons, ha, hr]⟩

theorem splitEq_identity (cs : List Char) (h : '=' ∈ cs) :
    cs.takeWhile (fun c => !decide (c = '='))
      ++ '=' :: ((cs.dropWhile (fun c => !decide (c = '='))).drop 1) = cs := by
  obtain ⟨rest, hr⟩ := dropWhile_ne_cons '=' cs h
  conv_rhs => rw [← List.takeWhile_append_dropWhile (p := fun c => !decide (c = '=')) (l := cs)]
  rw [hr]
  simp

theorem self_notin_takeWhile (d : Char) (cs : List Char) :
    d ∉ cs.takeWhile (fun c => !decide (c = d)) := by
  intro h
  have := List.takeWhile_subset (p := fun c => !decide (c = d)) (l := cs)
  have hp := List.mem_takeWhile_imp h
  simp at hp

theorem takeWhile_subset_mem (p : Char → Bool) (cs : List Char) (a : Char)
    (h : a ∈ cs.takeWhile p) : a ∈ cs :=
  List.takeWhile_subset p h

theorem dropWhile_subset_mem (p : Char → Bool) (cs : List Char) (a : Char)
    (h : a ∈ cs.dropWhile p) : a ∈ cs :=
  (List.dropWhile_sublist (p := p) (l := cs)).subset h

theorem drop_subset_mem (n : Nat) (cs : List Char) (a : Char) (h : a ∈ cs.drop n) : a ∈ cs :=
  (List.drop_sublist n cs).subset h

theorem takeWhile_head? (p : Char → Bool) (cs : List Char) (c : Char)
    (h : (cs.takeWhile p).head? = some c) : cs.head? = some c := by
  cases cs with
  | nil => simp [List.takeWhile] at h
  | cons a as =>
    by_cases hp : p a = true
    · simp [List.takeWhile_cons, hp] at h
      simp [h]
    · simp only [Bool.not_eq_true] at hp
      simp [List.takeWhile_cons, hp] at h

theorem prefix_name_forces (N : List Char) :
    ∀ (t n w : List Char), '=' ∉ N → '=' ∉ n →
      isPrefixL (N ++ '=' :: t) (n ++ '=' :: w) = true → n = N ∧ isPrefixL t w = true := by
  induction N with
  | nil =>
    intro t n w _ hn h
    cases n with
    | nil =>
      refine ⟨rfl, ?_⟩
      simpa [isPrefixL] using h
    | cons a n' =>
      exfalso
      have ha : ¬('=' = a) := fun he => hn (he ▸ List.mem_cons_self a n')
      simp [isPrefixL, ha] at h
  | cons b N' ih =>
    intro t n w hN hn h
    have hb : b ≠ '=' := fun he => hN (he ▸ List.mem_cons_self b N')
    cases n with
    | nil =>
      exfalso
      have : ¬(b = '=') := hb
      simp [isPrefixL, this] at h
    | cons a n' =>
      by_cases hba : b = a
      · subst hba
        simp only [List.cons_append, isPrefixL, if_pos rfl] at h
        have hN' : '=' ∉ N' := fun hm => hN (List.mem_cons_of_mem b hm)
        have hn' : '=' ∉ n' := fun hm => hn (List.mem_cons_of_mem b hm)
        obtain ⟨heq, hp⟩ := ih t n' w hN' hn' h
        exact ⟨by rw [heq], hp⟩
      · exfalso
        simp [isPrefixL, hba] at h

theorem isPrefixL_mem (xs : List Char) :
    ∀ (ys : List Char) (a : Char), isPrefixL xs ys = true → a ∈ xs → a ∈ ys := by
  induction xs with
  | nil => intro ys a _ ha; simp at ha
  | cons x xs ih =>
    intro ys a h ha
    cases ys with
    | nil => simp [isPrefixL] at h
    | cons y ys' =>
      by_cases hxy : x = y
      · subst hxy
        simp only [isPrefixL, if_pos rfl] at h
        rcases List.mem_cons.mp ha with he | hm
        · exact he ▸ List.mem_cons_self x ys'
        · exact List.mem_cons_of_mem x (ih ys' a h hm)
      · simp [isPrefixL, hxy] at h

theorem splitOnSemi_ne_nil (cs : List Char) : splitOnSemi cs ≠ [] := by
  cases cs with
  | nil => simp [splitOnSemi]
  | cons c rest =>
    by_cases hc : c = ';'
    · simp [splitOnSemi, hc]
    · simp only [splitOnSemi, if_neg hc]
      cases h : splitOnSemi rest <;> simp

theorem splitOnSemi_no_semi (xs : List Char) (h : ';' ∉ xs) : splitOnSemi xs = [xs] := by
  induction xs with
  | nil => rfl
  | cons a as ih =>
    have ha : a ≠ ';' := fun he => h (he ▸ List.mem_cons_self a as)
    have h' : ';' ∉ as := fun hm => h (List.mem_cons_of_mem a hm)
    simp [splitOnSemi, ha, ih h']

theorem splitOnSemi_append (xs ys : List Char) (h : ';' ∉ xs) :
    splitOnSemi (xs ++ ';' :: ys) = xs :: splitOnSemi ys := by
  induction xs with
  | nil => simp [splitOnSemi]
  | cons a as ih =>
    have ha : a ≠ ';' := fun he => h (he ▸ List.mem_cons_self a as)
    have h' : ';' ∉ as := fun hm => h (List.mem_cons_of_mem a hm)
    simp only [List.cons_append, splitOnSemi, if_neg ha]
    change (match splitOnSemi (as ++ ';' :: ys) with
      | seg :: segs => (a :: seg) :: segs
      | [] => [[a]]) = (a :: as) :: splitOnSemi ys
    rw [ih h']

theorem splitOnSemi_segs_no_semi (cs : List Char) :
    ∀ seg ∈ splitOnSemi cs, ';' ∉ seg := by
  induction cs with
  | nil =>
    intro seg hseg
    simp [splitOnSemi] at hseg
    simp [hseg]
  | cons c rest ih =>
    intro seg hseg
    by_cases hc : c = ';'
    · simp only [splitOnSemi, if_pos hc] at hseg
      rcases List.mem_cons.mp hseg with he | hm
      · simp [he]
      · exact ih seg hm
    · simp only [splitOnSemi, if_neg hc] at hseg
      cases hsp : splitOnSemi rest with
      | nil => exact absurd hsp (splitOnSemi_ne_nil rest)
      | cons seg0 segs =>
        rw [hsp] at hseg
        rcases List.mem_cons.mp hseg with he | hm
        · subst he
          intro hmem
          rcases List.mem_cons.mp hmem with he' | hm'
          · exact hc he'.symm
          · exact ih seg0 (hsp ▸ List.mem_cons_self seg0 segs) hm'
        · exact ih seg (hsp ▸ List.mem_cons_of_mem seg0 hm)

theorem trimLeadL_of_head (cs : List Char) (h : cs.head? ≠ some ' ') :
    trimLeadL cs = cs := by
  cases cs with
  | nil => rfl
  | cons a as =>
    have ha : ¬(a = ' ') := fun he => h (by simp [he])
    simp [trimLeadL, List.dropWhile_cons, ha]

theorem trimLeadL_head (cs : List Char) (c : Char) (h : (trimLeadL cs).head? = some c) :
    c ≠ ' ' := by
  induction cs with
  | nil => simp [trimLeadL] at h
  | cons a as ih =>
    by_cases ha : a = ' '
    · simp only [trimLeadL, List.dropWhile_cons, ha] at h ih ⊢
      simp at h
      exact ih (by simpa [trimLeadL] using h)
    · simp [trimLeadL, List.dropWhile_cons, ha] at h
      rw [← h]
      exact ha

theorem scanSegs_semi_name (name : List Char) (hsemi : ';' ∈ name) :
    ∀ segs, (∀ seg ∈ segs, ';' ∉ seg) → scanSegs name segs = [] := by
  intro segs
  induction segs with
  | nil => intro _; rfl
  | cons seg rest ih =>
    intro hsegs
    have hseg : ';' ∉ seg := hsegs seg (List.mem_cons_self seg rest)
    have hnp : isPrefixL name (trimLeadL seg) = false := by
      by_contra hb
      rw [Bool.not_eq_false] at hb
      have : ';' ∈ trimLeadL seg := isPrefixL_mem name (trimLeadL seg) ';' hb hsemi
      exact hseg (dropWhile_subset_mem _ seg ';' this)
    simp only [scanSegs, hnp, Bool.false_eq_true, if_false]
    exact ih (fun s hs => hsegs s (List.mem_cons_of_mem seg hs))

theorem scanSegs_space_name (A' : List Char) :
    ∀ segs, scanSegs (' ' :: A') segs = [] := by
  intro segs
  induction segs with
  | nil => rfl
  | cons seg rest ih =>
    have hnp : isPrefixL (' ' :: A') (trimLeadL seg) = false := by
      cases hts : trimLeadL seg with
      | nil => rfl
      | cons c cs' =>
        have hc : c ≠ ' ' := trimLeadL_head seg c (by simp [hts])
        have hne : ¬(' ' = c) := fun he => hc he.symm
        simp [isPrefixL, hne]
    simp only [scanSegs, hnp, Bool.false_eq_true, if_false]
    exact ih

theorem name_decomp (A vl N V : List Char) (hN : '=' ∉ N)
    (hid : N ++ '=' :: V = A ++ '=' :: vl) :
    ∃ t, A ++ ['='] = N ++ '=' :: t := by
  have hNA : N = A.takeWhile (fun c => !decide (c = '=')) := by
    have h1 : (N ++ '=' :: V).takeWhile (fun c => !decide (c = '='))
        = N.takeWhile (fun c => !decide (c = '=')) :=
      takeWhile_append_stop _ '=' (by simp) N V
    have h2 : (A ++ '=' :: vl).takeWhile (fun c => !decide (c = '='))
        = A.takeWhile (fun c => !decide (c = '=')) :=
      takeWhile_append_stop _ '=' (by simp) A vl
    rw [← takeWhile_all_of_notMem '=' N hN, ← h1, hid, h2]
  by_cases hA : '=' ∈ A
  · have hsplit := splitEq_identity A hA
    rw [← hNA] at hsplit
    refine ⟨(A.dropWhile (fun c => !decide (c = '='))).drop 1 ++ ['='], ?_⟩
    conv_lhs => rw [← hsplit]
    simp
  · rw [takeWhile_all_of_notMem '=' A hA] at hNA
    exact ⟨[], by rw [hNA]⟩

theorem mem_upsertJar_self (jar : CookieJar) (p : List Char × List Char) :
    p ∈ upsertJar jar p := by
  induction jar with
  | nil => simp [upsertJar]
  | cons e rest ih =>
    by_cases he : e.1 = p.1
    · simp [upsertJar, he]
    · simp only [upsertJar, if_neg he]
      exact List.mem_cons_of_mem e ih

theorem mem_upsertJar (jar : CookieJar) (p e : List Char × List Char)
    (he : e ∈ upsertJar jar p) : e ∈ jar ∨ e = p := by
  induction jar with
  | nil =>
    simp [upsertJar] at he
    right; exact he
  | cons f rest ih =>
    by_cases hf : f.1 = p.1
    · simp only [upsertJar, if_pos hf] at he
      rcases List.mem_cons.mp he with h | h
      · right; exact h
      · left; exact List.mem_cons_of_mem f h
    · simp only [upsertJar, if_neg hf] at he
      rcases List.mem_cons.mp he with h | h
      · left; exact h ▸ List.mem_cons_self f rest
      · rcases ih h with h' | h'
        · left; exact List.mem_cons_of_mem f h'
        · right; exact h'

theorem mem_upsertJar_of_ne (jar : CookieJar) (p e : List Char × List Char)
    (hne : e.1 ≠ p.1) (he : e ∈ jar) : e ∈ upsertJar jar p := by
  induction jar with
  | nil => simp at he
  | cons f rest ih =>
    by_cases hf : f.1 = p.1
    · simp only [upsertJar, if_pos hf]
      rcases List.mem_cons.mp he with h | h
      · exact absurd (h ▸ hf) hne
      · exact List.mem_cons_of_mem p h
    · simp only [upsertJar, if_neg hf]
      rcases List.mem_cons.mp he with h | h
      · exact h ▸ List.mem_cons_self f _
      · exact List.mem_cons_of_mem f (ih h)

theorem upsertJar_nodup (jar : CookieJar) (p : List Char × List Char)
    (h : (jar.map Prod.fst).Nodup) : ((upsertJar jar p).map Prod.fst).Nodup := by
  induction jar with
  | nil => simp [upsertJar]
  | cons f rest ih =>
    simp only [List.map_cons, List.nodup_cons] at h
    obtain ⟨hnotin, hnd⟩ := h
    by_cases hf : f.1 = p.1
    · simp only [upsertJar, if_pos hf, List.map_cons, List.nodup_cons]
      exact ⟨hf ▸ hnotin, hnd⟩
    · simp only [upsertJar, if_neg hf, List.map_cons, List.nodup_cons]
      constructor
      · intro hm
        obtain ⟨e, hel, he1⟩ := List.mem_map.mp hm
        rcases mem_upsertJar rest p e hel with h' | h'
        · exact hnotin (he1 ▸ List.mem_map_of_mem Prod.fst h')
        · exact hf (by rw [← he1, h'])
      · exact ih hnd

/-- Well-formedness of a browser cookie entry: name without `'='`/`';'`
and no leading space, value without `';'`. -/
def WFE (e : List Char × List Char) : Prop :=
  '=' ∉ e.1 ∧ ';' ∉ e.1 ∧ ';' ∉ e.2 ∧ e.1.head? ≠ some ' '

theorem entryText_pair (n w : List Char) : entryText (n, w) = n ++ '=' :: w := rfl

theorem no_semi_entry (n w : List Char) (h1 : ';' ∉ n) (h2 : ';' ∉ w) :
    ';' ∉ n ++ '=' :: w := by
  intro hm
  rcases List.mem_append.mp hm with h | h
  · exact h1 h
  · rcases List.mem_cons.mp h with h' | h'
    · exact absurd h' (by decide)
    · exact h2 h'

theorem trim_entryText (n w : List Char) (hh : n.head? ≠ some ' ') :
    trimLeadL (n ++ '=' :: w) = n ++ '=' :: w := by
  apply trimLeadL_of_head
  cases n with
  | nil => simp
  | cons a as =>
    simp only [List.cons_append, List.head?_cons]
    intro he
    exact hh (by simpa using he)

theorem trimLeadL_space (seg : List Char) : trimLeadL (' ' :: seg) = trimLeadL seg := by
  simp [trimLeadL, List.dropWhile_cons]

theorem scan_head_match (A vl n w : List Char) (hid : n ++ '=' :: w = A ++ '=' :: vl)
    (hh : n.head? ≠ some ' ') (segs : List (List Char)) :
    scanSegs (A ++ ['=']) ((n ++ '=' :: w) :: segs) = vl := by
  have hips : isPrefixL (A ++ ['=']) (n ++ '=' :: w) = true := by
    rw [hid, show A ++ '=' :: vl = (A ++ ['=']) ++ vl by simp]
    exact isPrefixL_append_self _ _
  simp only [scanSegs, trim_entryText n w hh, hips, if_true]
  rw [hid, show A ++ '=' :: vl = (A ++ ['=']) ++ vl by simp]
  have hlen : (A ++ ['=']).length = (A ++ ['=']).length := rfl
  exact List.drop_left _ _

/-- The central cookie-scan lemma: in a well-formed cookie store that
contains the pair parsed from the assignment `A + "=" + vl + ...`, the
`getItemCookie` scan for the name `A` recovers exactly `vl`. -/
theorem scanSegs_serialize (A vl : List Char) (jar : CookieJar) (N V : List Char)
    (hwf : ∀ e ∈ jar, WFE e)
    (hnd : (jar.map Prod.fst).Nodup)
    (hmem : (N, V) ∈ jar)
    (hid : N ++ '=' :: V = A ++ '=' :: vl) :
    scanSegs (A ++ ['=']) (splitOnSemi (serializeJar jar)) = vl := by
  have hNfree : '=' ∉ N := (hwf (N, V) hmem).1
  obtain ⟨t, hname⟩ := name_decomp A vl N V hNfree hid
  induction jar with
  | nil => simp at hmem
  | cons e rest ih =>
    obtain ⟨n, w⟩ := e
    obtain ⟨hne, hns, hws, hnh⟩ := hwf (n, w) (List.mem_cons_self _ _)
    rw [List.map_cons, List.nodup_cons] at hnd
    obtain ⟨hn_notin, hnd'⟩ := hnd
    cases rest with
    | nil =>
      have he : (N, V) = (n, w) := by simpa using hmem
      have hN_eq : N = n := congrArg Prod.fst he
      have hV_eq : V = w := congrArg Prod.snd he
      have hid' : n ++ '=' :: w = A ++ '=' :: vl := by
        rw [← hN_eq, ← hV_eq]; exact hid
      have hser : serializeJar [(n, w)] = n ++ '=' :: w := rfl
      rw [hser, splitOnSemi_no_semi _ (no_semi_entry n w hns hws)]
      exact scan_head_match A vl n w hid' hnh []
    | cons e2 rest2 =>
      have hser : serializeJar ((n, w) :: e2 :: rest2)
          = (n ++ '=' :: w) ++ ';' :: ' ' :: serializeJar (e2 :: rest2) := rfl
      rw [hser, splitOnSemi_append _ _ (no_semi_entry n w hns hws)]
      obtain ⟨seg0, segs0, hsp⟩ : ∃ s ss, splitOnSemi (serializeJar (e2 :: rest2)) = s :: ss := by
        cases h : splitOnSemi (serializeJar (e2 :: rest2)) with
        | nil => exact absurd h (splitOnSemi_ne_nil _)
        | cons s ss => exact ⟨s, ss, rfl⟩
      have hsp2 : splitOnSemi (' ' :: serializeJar (e2 :: rest2)) = (' ' :: seg0) :: segs0 := by
        have hsc : ¬(' ' = ';') := by decide
        simp only [splitOnSemi, if_neg hsc]
        change (match splitOnSemi (serializeJar (e2 :: rest2)) with
          | seg :: segs => (' ' :: seg) :: segs
          | [] => [[' ']]) = (' ' :: seg0) :: segs0
        rw [hsp]
      rw [hsp2]
      rcases List.mem_cons.mp hmem with hhead | htail
      · have hN_eq : N = n := congrArg Prod.fst hhead
        have hV_eq : V = w := congrArg Prod.snd hhead
        have hid' : n ++ '=' :: w = A ++ '=' :: vl := by
          rw [← hN_eq, ← hV_eq]; exact hid
        exact scan_head_match A vl n w hid' hnh _
      · have hnN : n ≠ N := by
          intro heq
          have hNmem := List.mem_map_of_mem Prod.fst htail
          rw [heq] at hn_notin
          exact hn_notin hNmem
        have hskip : isPrefixL (A ++ ['=']) (trimLeadL (n ++ '=' :: w)) = false := by
          rw [trim_entryText n w hnh]
          by_contra hb
          rw [Bool.not_eq_false] at hb
          rw [hname] at hb
          obtain ⟨heq, -⟩ := prefix_name_forces N t n w hNfree hne hb
          exact hnN heq
        have h1 : scanSegs (A ++ ['=']) ((n ++ '=' :: w) :: (' ' :: seg0) :: segs0)
            = scanSegs (A ++ ['=']) ((' ' :: seg0) :: segs0) := by
          simp only [scanSegs, hskip, Bool.false_eq_true, if_false]
        have h2 : scanSegs (A ++ ['=']) ((' ' :: seg0) :: segs0)
            = scanSegs (A ++ ['=']) (seg0 :: segs0) := by
          simp only [scanSegs, trimLeadL_space]
        rw [h1, h2, ← hsp]
        exact ih (fun e he => hwf e (List.mem_cons_of_mem _ he)) hnd' htail

/-- The cookie pair the store extracts from the assignment
`n + "=" + v + ";path=/;"`. -/
def pairC (n v : String) : List Char × List Char :=
  cookiePairOf (n.data ++ '=' :: v.data ++ (";path=/;".data))

theorem setCookieJs_none (jar : CookieJar) (n v : String) :
    setCookieJs jar n v none = upsertJar jar (pairC n v) := rfl

theorem bsSetItemCookie_jar (c : Cache) (n v : String) :
    (bsSetItemCookie c n v none).jar = upsertJar c.jar (pairC n v) := rfl

theorem bsSetItemCookie_clientId (c : Cache) (n v : String) (e : Option Int) :
    (bsSetItemCookie c n v e).clientId = c.clientId := rfl

theorem bsSetItemCookie_getStore (c : Cache) (n v : String) (e : Option Int) :
    getStore (bsSetItemCookie c n v e) = getStore c := rfl

theorem acSetItemCookie_getStore (c : Cache) (n v : String) (e : Option Int) :
    getStore (acSetItemCookie c n v e) = getStore c := by
  unfold acSetItemCookie rollbackEnabled
  simp only [if_true]
  rw [bsSetItemCookie_getStore, bsSetItemCookie_getStore]

theorem acSetItemCookie_clientId (c : Cache) (n v : String) (e : Option Int) :
    (acSetItemCookie c n v e).clientId = c.clientId := by
  unfold acSetItemCookie rollbackEnabled
  simp only [if_true]
  rfl

theorem acSetItemCookie_jar (c : Cache) (n v : String) :
    (acSetItemCookie c n v none).jar
      = upsertJar (upsertJar c.jar (pairC (generateCacheKey c.clientId true n) v))
          (pairC (generateCacheKey c.clientId false n) v) := by
  unfold acSetItemCookie rollbackEnabled
  simp only [if_true]
  rfl

theorem bsSetItem_getStore (c : Cache) (key value : String) (m : Bool) :
    getStore (bsSetItem c key value m) = setStore (getStore c) key value := by
  unfold bsSetItem
  cases m with
  | false => rw [if_neg (by simp), getStore_putStore]
  | true => rw [if_pos rfl, acSetItemCookie_getStore, getStore_putStore]

theorem bsSetItem_clientId (c : Cache) (key value : String) (m : Bool) :
    (bsSetItem c key value m).clientId = c.clientId := by
  unfold bsSetItem
  cases m with
  | false => rw [if_neg (by simp), putStore_clientId]
  | true => rw [if_pos rfl, acSetItemCookie_clientId, putStore_clientId]

theorem acSetItem_getStore (c : Cache) (k v : String) (m : Bool) :
    getStore (acSetItem c k v m)
      = setStore (setStore (getStore c) (generateCacheKey c.clientId true k) v)
          (generateCacheKey c.clientId false k) v := by
  unfold acSetItem rollbackEnabled
  simp only [if_true]
  rw [bsSetItem_getStore, bsSetItem_getStore]

theorem acSetItem_clientId (c : Cache) (k v : String) (m : Bool) :
    (acSetItem c k v m).clientId = c.clientId := by
  unfold acSetItem rollbackEnabled
  simp only [if_true]
  rw [bsSetItem_clientId, bsSetItem_clientId]

theorem bsSetItem_true_jar (c : Cache) (key v : String)
    (hf1 : generateCacheKey c.clientId true key = key)
    (hf2 : generateCacheKey c.clientId false key = key) :
    (bsSetItem c key v true).jar
      = upsertJar (upsertJar c.jar (pairC key v)) (pairC key v) := by
  unfold bsSetItem
  rw [if_pos rfl, acSetItemCookie_jar, putStore_clientId, hf1, hf2, putStore_jar]

theorem acSetItem_true_jar (c : Cache) (k v : String) :
    (acSetItem c k v true).jar
      = upsertJar
          (upsertJar
            (upsertJar (upsertJar c.jar (pairC (generateCacheKey c.clientId true k) v))
              (pairC (generateCacheKey c.clientId true k) v))
            (pairC (generateCacheKey c.clientId false k) v))
          (pairC (generateCacheKey c.clientId false k) v) := by
  unfold acSetItem rollbackEnabled
  simp only [if_true]
  have hc1 : (bsSetItem c (generateCacheKey c.clientId true k) v true).clientId = c.clientId :=
    bsSetItem_clientId _ _ _ _
  rw [bsSetItem_true_jar _ _ v
      (by rw [hc1]; exact generateCacheKey_fix c.clientId c.clientId false true k)
      (by rw [hc1]; exact generateCacheKey_fix c.clientId c.clientId false false k)]
  rw [bsSetItem_true_jar _ _ v
      (generateCacheKey_fix c.clientId c.clientId true true k)
      (generateCacheKey_fix c.clientId c.clientId true false k)]

theorem lookup_twoset (σ : Store) (A B v : String) :
    lookupStore (setStore (setStore σ A v) B v) A = some v := by
  rw [lookupStore_set]
  by_cases h : B = A
  · simp [h]
  · simp [h, lookupStore_set]

theorem pairC_firstSeg (n v : String) (hsemi : ';' ∉ n.data) (hv : ';' ∉ v.data) :
    pairC n v
      = ((n.data ++ '=' :: v.data).takeWhile (fun c => !decide (c = '=')),
         ((n.data ++ '=' :: v.data).dropWhile (fun c => !decide (c = '='))).drop 1) := by
  simp only [pairC, cookiePairOf]
  have hshape : n.data ++ '=' :: (v.data ++ (";path=/;".data))
      = (n.data ++ '=' :: v.data) ++ ';' :: ("path=/;".data) := by
    rw [show (";path=/;".data) = ';' :: ("path=/;".data) from rfl]
    simp
  rw [show n.data ++ '=' :: v.data ++ (";path=/;".data)
      = n.data ++ '=' :: (v.data ++ (";path=/;".data)) from by simp, hshape]
  have hfs : ((n.data ++ '=' :: v.data) ++ ';' :: ("path=/;".data)).takeWhile
      (fun c => !decide (c = ';')) = n.data ++ '=' :: v.data := by
    rw [takeWhile_append_stop _ ';' (by simp) _ _]
    exact takeWhile_all_of_notMem ';' _ (no_semi_entry n.data v.data hsemi hv)
  rw [hfs]

theorem pairC_id (n v : String) (hsemi : ';' ∉ n.data) (hv : ';' ∉ v.data) :
    (pairC n v).1 ++ '=' :: (pairC n v).2 = n.data ++ '=' :: v.data := by
  rw [pairC_firstSeg n v hsemi hv]
  exact splitEq_identity _ (by simp)

theorem pairC_fst (n v : String) (hsemi : ';' ∉ n.data) (hv : ';' ∉ v.data) :
    (pairC n v).1 = n.data.takeWhile (fun c => !decide (c = '=')) := by
  rw [pairC_firstSeg n v hsemi hv]
  exact takeWhile_append_stop _ '=' (by simp) n.data v.data

theorem pairC_wfe (n v : String) (hsemi : ';' ∉ n.data) (hv : ';' ∉ v.data)
    (hh : n.data.head? ≠ some ' ') : WFE (pairC n v) := by
  refine ⟨?_, ?_, ?_, ?_⟩
  · rw [pairC_fst n v hsemi hv]
    exact self_notin_takeWhile '=' n.data
  · rw [pairC_fst n v hsemi hv]
    intro h
    exact hsemi (takeWhile_subset_mem _ _ _ h)
  · rw [pairC_firstSeg n v hsemi hv]
    intro h
    have h1 := drop_subset_mem _ _ _ h
    have h2 := dropWhile_subset_mem _ _ _ h1
    exact no_semi_entry n.data v.data hsemi hv h2
  · rw [pairC_fst n v hsemi hv]
    intro h
    exact hh (takeWhile_head? _ _ _ h)

theorem wfe_upsert (jar : CookieJar) (p : List Char × List Char)
    (hjar : ∀ e ∈ jar, WFE e) (hp : WFE p) : ∀ e ∈ upsertJar jar p, WFE e :=
  fun e he => (mem_upsertJar jar p e he).elim (hjar e) (fun h => h ▸ hp)

theorem msal_data (s : String) :
    (cachePrefix ++ "." ++ s).data = 'm' :: 's' :: 'a' :: 'l' :: '.' :: s.data := by
  rw [data_append, data_append]
  rfl

theorem dotted_data (a b : String) : (a ++ "." ++ b).data = a.data ++ '.' :: b.data := by
  rw [data_append, data_append]
  rw [show (".".data) = ['.'] from rfl]
  simp

/-- After `setItem(k, v)` with cookie mirroring, the `getItemCookie` scan
for the current-schema key returns either `v` (well-formed cookie store,
semicolon-free value, cookie-name-safe client id) or the empty string
(when the physical key itself cannot serve as a cookie name — it contains
`';'` or starts with a space — and the write garbled or missed the jar). -/
theorem roundtrip_cookieVal (c : Cache) (k v : String)
    (hwfj : ∀ e ∈ c.jar, WFE e) (hndj : (c.jar.map Prod.fst).Nodup)
    (hcid : '=' ∉ c.clientId.data) (hv : ';' ∉ v.data) :
    getItemCookieRaw (generateCacheKey c.clientId true k)
        (serializeJar (acSetItem c k v true).jar) = v
    ∨ getItemCookieRaw (generateCacheKey c.clientId true k)
        (serializeJar (acSetItem c k v true).jar) = "" := by
  rw [acSetItem_true_jar]
  unfold getItemCookieRaw
  by_cases hs : ';' ∈ (generateCacheKey c.clientId true k).data
  · right
    rw [scanSegs_semi_name _ (List.mem_append_left _ hs) _ (splitOnSemi_segs_no_semi _)]
  · by_cases hh : (generateCacheKey c.clientId true k).data.head? = some ' '
    · right
      obtain ⟨tl, htl⟩ : ∃ tl, (generateCacheKey c.clientId true k).data = ' ' :: tl := by
        cases hdata : (generateCacheKey c.clientId true k).data with
        | nil => rw [hdata] at hh; simp at hh
        | cons a t =>
          rw [hdata] at hh
          simp at hh
          exact ⟨t, by rw [hh]⟩
      rw [htl, show (' ' :: tl) ++ ['='] = ' ' :: (tl ++ ['=']) from rfl, scanSegs_space_name]
    · left
      have hwfeA : WFE (pairC (generateCacheKey c.clientId true k) v) := pairC_wfe _ v hs hv hh
      have hidA := pairC_id (generateCacheKey c.clientId true k) v hs hv
      set p := pairC (generateCacheKey c.clientId true k) v with hp
      rcases generateCacheKey_cases k with hpass | hns
      · -- structured / already-prefixed key: both schema keys coincide
        have hBA : generateCacheKey c.clientId false k = generateCacheKey c.clientId true k := by
          rw [hpass c.clientId true, hpass c.clientId false]
        rw [hBA]
        have hwf₂ := wfe_upsert _ p (wfe_upsert _ p (wfe_upsert _ p
          (wfe_upsert _ p hwfj hwfeA) hwfeA) hwfeA) hwfeA
        have hnd₂ := upsertJar_nodup _ p (upsertJar_nodup _ p (upsertJar_nodup _ p
          (upsertJar_nodup _ p hndj)))
        have hmem :=
          mem_upsertJar_self (upsertJar (upsertJar (upsertJar c.jar p) p) p) p
        have hscan := scanSegs_serialize (generateCacheKey c.clientId true k).data v.data
          (upsertJar (upsertJar (upsertJar (upsertJar c.jar p) p) p) p)
          p.1 p.2 hwf₂ hnd₂ (by rw [Prod.mk.eta]; exact hmem) hidA
        rw [hscan]
      · obtain ⟨hAkey, hBkey⟩ := hns c.clientId
        have hAdata : (generateCacheKey c.clientId true k).data
            = 'm' :: 's' :: 'a' :: 'l' :: '.' :: (c.clientId.data ++ '.' :: k.data) := by
          rw [hAkey, msal_data, dotted_data]
        have hBdata : (generateCacheKey c.clientId false k).data
            = 'm' :: 's' :: 'a' :: 'l' :: '.' :: k.data := by
          rw [hBkey, msal_data]
        have hsemi_k : ';' ∉ k.data := by
          intro hmm
          apply hs
          rw [hAdata]
          simp [hmm]
        have hsB : ';' ∉ (generateCacheKey c.clientId false k).data := by
          rw [hBdata]
          simp [hsemi_k]
        have hhB : (generateCacheKey c.clientId false k).data.head? ≠ some ' ' := by
          rw [hBdata]
          simp
        have hwfeB : WFE (pairC (generateCacheKey c.clientId false k) v) :=
          pairC_wfe _ v hsB hv hhB
        set q := pairC (generateCacheKey c.clientId false k) v with hq
        have hallcid : ∀ x ∈ c.clientId.data, (fun ch => !decide (ch = '=')) x = true := by
          intro x hx
          simp only [Bool.not_eq_true', decide_eq_false_iff_not]
          exact fun he => hcid (he ▸ hx)
        have hNcomp : (generateCacheKey c.clientId true k).data.takeWhile
            (fun ch => !decide (ch = '='))
            = 'm' :: 's' :: 'a' :: 'l' :: '.'
                :: (c.clientId.data ++ '.' :: (k.data.takeWhile (fun ch => !decide (ch = '=')))) := by
          rw [hAdata]
          rw [show ('m' :: 's' :: 'a' :: 'l' :: '.' :: (c.clientId.data ++ '.' :: k.data) : List Char)
              = ['m', 's', 'a', 'l', '.'] ++ (c.clientId.data ++ ('.' :: k.data)) from rfl]
          rw [takeWhile_append_all _ _ _ (by decide)]
          rw [takeWhile_append_all _ _ _ hallcid]
          rw [show ('.' :: k.data : List Char) = ['.'] ++ k.data from rfl]
          rw [takeWhile_append_all _ _ _ (by decide)]
          simp
        have hMcomp : (generateCacheKey c.clientId false k).data.takeWhile
            (fun ch => !decide (ch = '='))
            = 'm' :: 's' :: 'a' :: 'l' :: '.'
                :: (k.data.takeWhile (fun ch => !decide (ch = '='))) := by
          rw [hBdata]
          rw [show ('m' :: 's' :: 'a' :: 'l' :: '.' :: k.data : List Char)
              = ['m', 's', 'a', 'l', '.'] ++ k.data from rfl]
          rw [takeWhile_append_all _ _ _ (by decide)]
          rfl
        have hNM : p.1 ≠ q.1 := by
          rw [hp, hq, pairC_fst _ v hs hv, pairC_fst _ v hsB hv, hNcomp, hMcomp]
          intro heq
          have hlen := congrArg List.length heq
          simp [List.length_cons, List.length_append] at hlen
          omega
        have hmemA : p ∈ upsertJar (upsertJar (upsertJar (upsertJar c.jar p) p) q) q := by
          apply mem_upsertJar_of_ne _ _ _ hNM
          apply mem_upsertJar_of_ne _ _ _ hNM
          exact mem_upsertJar_self _ _
        have hwf₂ := wfe_upsert _ q (wfe_upsert _ q (wfe_upsert _ p
          (wfe_upsert _ p hwfj hwfeA) hwfeA) hwfeB) hwfeB
        have hnd₂ := upsertJar_nodup _ q (upsertJar_nodup _ q (upsertJar_nodup _ p
          (upsertJar_nodup _ p hndj)))
        have hscan := scanSegs_serialize (generateCacheKey c.clientId true k).data v.data
          (upsertJar (upsertJar (upsertJar (upsertJar c.jar p) p) q) q)
          p.1 p.2 hwf₂ hnd₂ (by rw [Prod.mk.eta]; exact hmemA) hidA
        rw [hscan]

/-- A well-formed browser cookie store: every entry satisfies `WFE` and
names are distinct. -/
def WFJar (jar : CookieJar) : Prop :=
  (∀ e ∈ jar, WFE e) ∧ (jar.map Prod.fst).Nodup

/-- C5 (amended): `set(k, v)` followed by `get(k)` (same cookie-mirroring
setting) returns `v`, for every backend variant and every logical key.
With cookie mirroring disabled this holds unconditionally; with mirroring
enabled it additionally requires the value to contain no `';'` (the
cookie layer truncates the mirrored value at the first cookie delimiter —
see the counterexample), a well-formed cookie store, and a client id
usable inside cookie names (no `'='`). -/
theorem setItem_getItem_roundtrip (c : Cache) (k v : String) (mirror : Bool)
    (hm : mirror = true → WFJar c.jar ∧ '=' ∉ c.clientId.data ∧ ';' ∉ v.data) :
    acGetItem (acSetItem c k v mirror) k mirror = some v := by
  cases mirror with
  | false =>
    unfold acGetItem bsGetItem
    rw [acSetItem_clientId]
    rw [if_neg (fun h => Bool.false_ne_true h.1)]
    rw [acSetItem_getStore]
    exact lookup_twoset _ _ _ v
  | true =>
    obtain ⟨⟨hwfj, hndj⟩, hcid, hv⟩ := hm rfl
    have hcook := roundtrip_cookieVal c k v hwfj hndj hcid hv
    unfold acGetItem bsGetItem
    rw [acSetItem_clientId]
    have hGC : acGetItemCookie (acSetItem c k v true) (generateCacheKey c.clientId true k)
        = getItemCookieRaw (generateCacheKey c.clientId true k)
            (serializeJar (acSetItem c k v true).jar) := by
      unfold acGetItemCookie
      rw [acSetItem_clientId, generateCacheKey_fix]
    rw [hGC]
    rcases hcook with hcv | hcv
    · by_cases hve : v = ""
      · rw [if_neg]
        · rw [acSetItem_getStore]
          exact lookup_twoset _ _ _ v
        · intro hcontra
          exact hcontra.2 (by rw [hcv, hve])
      · rw [if_pos ⟨rfl, by rw [hcv]; exact hve⟩, hcv]
    · rw [if_neg (fun hcontra => hcontra.2 hcv)]
      rw [acSetItem_getStore]
      exact lookup_twoset _ _ _ v

def cacheC5 : Cache := ⟨"c", .localStorage, [], [], [], []⟩

/-- C5 as stated fails with cookie mirroring on: storing the value
`"a;b"` mirrors only `"a"` into the cookie (the cookie store cuts at the
first `';'`), and `get` then returns the cookie value `"a"`, not the
stored `"a;b"`. -/
theorem setItem_getItem_cookie_truncation :
    acGetItem (acSetItem cacheC5 "k" "a;b" true) "k" true = some "a"
    ∧ acGetItem (acSetItem cacheC5 "k" "a;b" true) "k" true ≠ some "a;b" := by
  refine ⟨?_, ?_⟩ <;> decide

/-- Witness for C5 (amended) with mirroring on and off. -/
theorem setItem_getItem_roundtrip_witness :
    (WFJar cacheC5.jar ∧ '=' ∉ cacheC5.clientId.data ∧ ';' ∉ "hello".data)
    ∧ acGetItem (acSetItem cacheC5 "k" "hello" true) "k" true = some "hello"
    ∧ acGetItem (acSetItem cacheC5 "k2" "x;y" false) "k2" false = some "x;y" :=
  ⟨⟨⟨fun e he => absurd he (List.not_mem_nil e), by decide⟩, by decide, by decide⟩,
   setItem_getItem_roundtrip cacheC5 "k" "hello" true
     (fun _ => ⟨⟨fun e he => absurd he (List.not_mem_nil e), by decide⟩, by decide, by decide⟩),
   setItem_getItem_roundtrip cacheC5 "k2" "x;y" false (fun h => absurd h (by decide))⟩
